import Mathlib

/-!
# inform: leveled logging with Telegram alerting

A shallow embedding of `inform/log.go`, `inform/telegram.go` and `web/web.go`
(function `Post`), followed by theorems about rendering, routing, metrics,
delivery and shutdown order.

Conventions of the embedding

* Go strings are Lean strings; one `Char` stands for one byte.  The only
  byte-indexed code (`getCallerInfo`) looks for `'/'`, which is never part of
  a multi-byte UTF-8 sequence.
* The process is a `World`: the package variable `logConfig`, the list of
  library calls made so far (`trace`), the answers the network will give to
  the coming HTTP calls (`net`), and the choices of the Go scheduler
  (`sched`).
* A goroutine that consumes a channel is run by the embedding at three kinds
  of points: before a send on its channel completes (as many iterations as
  the scheduler chooses, and at least as many as are needed to make room in
  the buffer); while a caller waits on its `done` channel (until the consumer
  has drained the channel and closed `done`); and, for the log processor,
  after each statement of `handlePanicFatal` that follows the closing of the
  logging queue, since `handlePanicFatal` does not wait for it (as many steps
  as the scheduler chooses).
* In `handlePanicFatal` the caller and the log processor make the same kinds
  of calls concurrently; there the calls of the log processor are recorded
  under `Event.logProcessor`, so that `metricsOf`, `alertsOf` and `printsOf`
  give the calls of `handlePanicFatal` itself.
* `halted` is set when the running call does not return: `os.Exit`, `panic`,
  or a runtime panic of a channel operation.  Every primitive is a no-op in a
  halted world.
-/

namespace Inform

/-! ## Values and the `fmt` fragment -/

/-- A value passed in a `...any` parameter list. -/
inductive Val where
  | str (s : String)
  | int (n : Int)
deriving DecidableEq, Repr

/-- Go type name, as printed by `reflect.TypeOf(arg).String()`. -/
def Val.typeName : Val → String
  | .str _ => "string"
  | .int _ => "int"

/-- Rendering of an operand under the verb `%v`. -/
def Val.fmtV : Val → String
  | .str s => s
  | .int n => toString n

/-- Output of `fmt` for a verb that is not defined for the operand. -/
def badVerb (verb : Char) (a : Val) : String :=
  "%!" ++ verb.toString ++ "(" ++ a.typeName ++ "=" ++ a.fmtV ++ ")"

/-- Fragment of `(*pp).printArg`: the verbs `T`, `v`, `s` and `d`; the other
verbs that `fmt` defines for strings and integers (`q`, `x`, `X`, `c`, `b`,
`o`, `O`, `U`) are not part of the fragment. -/
def printArg (a : Val) (verb : Char) : String :=
  if verb = 'T' then a.typeName
  else if verb = 'v' then a.fmtV
  else match a with
    | .str s => if verb = 's' then s else badVerb verb a
    | .int n => if verb = 'd' then toString n else badVerb verb a

/-- Trailer written by `doPrintf` for operands that no verb consumed. -/
def extraArgs : List Val → String
  | [] => ""
  | a :: as =>
    "%!(EXTRA " ++ ", ".intercalate ((a :: as).map fun v => v.typeName ++ "=" ++ v.fmtV) ++ ")"

/-- Fragment of `(*pp).doPrintf` of package `fmt`: literal text, `%%`, and a
verb that directly follows `%`.  Flags, width, precision and explicit argument
indexes are not part of the fragment. -/
def doPrintf : List Char → List Val → String
  | [], as => extraArgs as
  | c :: rest, as =>
    if c = '%' then
      match rest, as with
      | [], as => "%!(NOVERB)" ++ extraArgs as
      | v :: rest', [] =>
        if v = '%' then "%" ++ doPrintf rest' []
        else "%!" ++ v.toString ++ "(MISSING)" ++ doPrintf rest' []
      | v :: rest', a :: as' =>
        if v = '%' then "%" ++ doPrintf rest' (a :: as')
        else printArg a v ++ doPrintf rest' as'
    else c.toString ++ doPrintf rest as

/-- Go `fmt.Sprintf`. -/
def Sprintf (format : String) (a : List Val) : String :=
  doPrintf format.data a

/-- Operands of `fmt.Sprintln` after the first: each preceded by a space. -/
def sprintlnTail : List Val → String
  | [] => ""
  | a :: as => " " ++ a.fmtV ++ sprintlnTail as

/-- Go `fmt.Sprintln`: operands under `%v`, always separated by a space, and a
newline at the end. -/
def Sprintln : List Val → String
  | [] => "\n"
  | a :: as => a.fmtV ++ sprintlnTail as ++ "\n"

/-- Go `strconv.Itoa`. -/
def Itoa (n : Int) : String := toString n

/-! ## log.go: records -/

abbrev LogLevel := String

def LogLevelLog : LogLevel := "LOG"
def LogLevelWarn : LogLevel := "WARN"
def LogLevelCrit : LogLevel := "CRIT"
def LogLevelPanic : LogLevel := "PANIC"
def LogLevelFatal : LogLevel := "FATAL"

structure LogMessage where
  Level : LogLevel
  Caller : String
  IsPrintf : Bool
  Format : String
  Params : List Val
deriving DecidableEq, Repr

/-- The escape sequences `Yellow`, `Red`, `Cyan`, `Magenta` and `Reset`; the
file that declares these constants is not part of the sources, so their values
are a parameter. -/
structure Colors where
  Yellow : String
  Red : String
  Cyan : String
  Magenta : String
  Reset : String
deriving DecidableEq, Repr

def LogMessage.formattedMessage (l : LogMessage) : String :=
  if l.IsPrintf then
    Sprintf (l.Caller ++ " " ++ l.Format) l.Params
  else
    Sprintln (Val.str l.Caller :: l.Params)

def LogMessage.coloredMessage (c : Colors) (l : LogMessage) (msg : String) : String :=
  if l.Level = LogLevelLog then msg
  else if l.Level = LogLevelWarn then c.Yellow ++ msg ++ c.Reset
  else if l.Level = LogLevelCrit then c.Red ++ msg ++ c.Reset
  else if l.Level = LogLevelPanic then c.Cyan ++ msg ++ c.Reset
  else if l.Level = LogLevelFatal then c.Magenta ++ msg ++ c.Reset
  else msg

/-- The loop of `getCallerInfo`:
`for i, j := len(file)-1, 0; i > 0 && j < 2; i--`, with the current value of
`short` as accumulator. -/
def shortLoop (file : List Char) : Nat → Nat → List Char → List Char
  | 0, _, short => short
  | i + 1, j, short =>
    if j < 2 then
      if file[i + 1]? = some '/' then
        shortLoop file i (j + 1) (file.drop (i + 1 + 1))
      else
        shortLoop file i j short
    else short

/-- The value of `short` when the loop of `getCallerInfo` ends. -/
def shortName (file : List Char) : List Char :=
  shortLoop file (file.length - 1) 0 file

/-- Function `getCallerInfo`, given what `runtime.Caller(2)` reports: `none`
when `ok` is false, otherwise the file and the line. -/
def getCallerInfo (caller : Option (String × Int)) : String :=
  match caller with
  | none => "unknown file"
  | some (file, line) => String.mk (shortName file.data) ++ ":" ++ Itoa line

/-! ## The process state -/

/-- A Go channel.  `buf` holds, oldest first, the elements that were sent and
that the consumer goroutine has not processed yet: the element the consumer
has already received and is about to process, followed by the channel's
buffer.  With one consumer, a send completes as soon as `buf.length ≤ cap`. -/
@[ext]
structure Chan (α : Type) where
  buf : List α
  cap : Nat
  closed : Bool
deriving DecidableEq, Repr

/-- Go `make(chan α, cap)`. -/
def Chan.make (α : Type) (cap : Nat) : Chan α := ⟨[], cap, false⟩

/-- Struct `Sender` of telegram.go.  `in_` is the field `in`; `done` tells
whether the channel `done` has been closed; `web` is the name of the HTTP
client made by `web.New`. -/
@[ext]
structure Sender where
  in_ : Chan String
  done : Bool
  token : String
  chatID : String
  threadId : String
  web : String
deriving DecidableEq, Repr

/-- Struct `LogConfig` of log.go.  `logChan` and `tg` are `none` while the Go
fields are nil; `done` tells whether the channel `done` has been closed;
`errMetrics` tells whether the pointer `errMetrics` has been set. -/
@[ext]
structure LogConfig where
  logChan : Option (Chan LogMessage)
  done : Bool
  tg : Option Sender
  tgEnabled : Bool
  tgLogEnabled : Bool
  tgWarnEnabled : Bool
  tgCritEnabled : Bool
  tgPanicEnabled : Bool
  tgFatalEnabled : Bool
  errMetrics : Bool
  errMetricsEnabled : Bool
deriving DecidableEq, Repr

/-- The request that `web.Post` hands to the fasthttp client. -/
structure Request where
  method : String
  uri : String
  body : String
  headers : List (String × String)
deriving DecidableEq, Repr

/-- What the fasthttp client answers: an error, or a response with a status
code. -/
inductive NetReply where
  | error (msg : String)
  | status (code : Int)
deriving DecidableEq, Repr

/-- A call that leaves the package, or a channel operation that completed. -/
inductive Event where
  | logPrint (s : String)
  | logPrintf (format : String) (a : List Val)
  | osExit (code : Int)
  | goPanic (s : String)
  | runtimePanic (msg : String)
  | deadlock
  | errGaugeInc (level : String)
  | sendLogChan (lm : LogMessage)
  | closeLogChan
  | closeLogDone
  | sendIn (text : String)
  | closeIn
  | closeTgDone
  | clientDoTimeout (req : Request) (timeout : Int)
  | clientDo (req : Request)
  | logProcessor (e : Event)
deriving DecidableEq, Repr

/-- The calls of the alert daemon: the HTTP call and the report of a failed
delivery. -/
def Event.isDelivery : Event → Bool
  | .clientDoTimeout _ _ => true
  | .logPrintf _ _ => true
  | _ => false

/-- Attribution of a call made while the goroutine `logProcessor` runs
concurrently with its caller: the calls of the processor itself are recorded
under `logProcessor`, the calls of the alert daemon stay as they are. -/
def Event.fromLogProcessor (e : Event) : Event :=
  if e.isDelivery then e else .logProcessor e

/-- The process: package state, the calls made so far, and the environment
(`net k` answers the HTTP call number `k`; `sched k` is the number of consumer
iterations the scheduler runs before the channel send number `k` completes). -/
@[ext]
structure World where
  logConfig : LogConfig
  colors : Colors
  trace : List Event
  halted : Bool
  net : Nat → NetReply
  netCalls : Nat
  sched : Nat → Nat
  yields : Nat

/-- The zero value `&LogConfig{}` of the package variable. -/
def LogConfig.zero : LogConfig :=
  ⟨none, false, none, false, false, false, false, false, false, false, false⟩

/-- The process before any call into the package. -/
def World.init (colors : Colors) (net : Nat → NetReply) (sched : Nat → Nat) : World :=
  ⟨LogConfig.zero, colors, [], false, net, 0, sched, 0⟩

/-- Record a call. -/
def World.emit (e : Event) (w : World) : World :=
  if w.halted then w else { w with trace := w.trace ++ [e] }

/-- Record a call that does not return. -/
def World.halt (e : Event) (w : World) : World :=
  if w.halted then w else { w with trace := w.trace ++ [e], halted := true }

/-- Assignment to fields of `logConfig`. -/
def World.setConfig (f : LogConfig → LogConfig) (w : World) : World :=
  if w.halted then w else { w with logConfig := f w.logConfig }

/-- Runtime panic of a method call through a nil pointer. -/
def nilDeref (w : World) : World :=
  w.halt (.runtimePanic "invalid memory address or nil pointer dereference")

/-- The scheduler's choice at the next channel send. -/
def World.yield (w : World) : Nat × World :=
  (w.sched w.yields, if w.halted then w else { w with yields := w.yields + 1 })

/-! ## web.go -/

/-- Go `time.Second`, in nanoseconds. -/
def Second : Int := 1000000000

/-- Method `Header.Set`: replace the value of the key, or add the key. -/
def headerSet (h : List (String × String)) (k v : String) : List (String × String) :=
  if h.any (fun kv => kv.1 = k) then h.map (fun kv => if kv.1 = k then (k, v) else kv)
  else h ++ [(k, v)]

/-- Method `(*Web).Post`: the status code and the error it returns (the
response body is not used by this package). -/
def Web.Post (url : String) (headers : List (String × String)) (payload : String)
    (timeout : Int) (w : World) : (Int × Option String) × World :=
  let req : Request :=
    { method := "POST", uri := url, body := payload,
      headers := headers.foldl (fun h kv => headerSet h kv.1 kv.2) [] }
  let reply := w.net w.netCalls
  let w1 := if w.halted then w else { w with netCalls := w.netCalls + 1 }
  let w2 := if timeout > 0 then w1.emit (.clientDoTimeout req timeout) else w1.emit (.clientDo req)
  match reply with
  | .error msg => ((0, some msg), w2)
  | .status code => ((code, none), w2)

/-! ## telegram.go -/

/-- Function `NewSender`; `go s.daemon()` makes the daemon runnable. -/
def NewSender (subsystem token chatID threadId : String) (queue : Nat) : Sender :=
  { in_ := Chan.make String queue, done := false, token := token, chatID := chatID,
    threadId := threadId, web := subsystem ++ "-telegram" }

/-- Method `(*Sender).Send`: the error it returns, `none` for nil. -/
def Sender.Send (s : Sender) (text : String) (w : World) : Option String × World :=
  let url := "https://api.telegram.org/bot" ++ s.token ++ "/sendMessage"
  let body := "chat_id=" ++ s.chatID ++ "&message_thread_id=" ++ s.threadId ++ "&text=" ++ text
  let r := Web.Post url [("Content-Type", "application/x-www-form-urlencoded")] body (Second * 10) w
  match r.1.2 with
  | some err => (some err, r.2)
  | none =>
    if r.1.1 ≠ 200 then (some (Sprintf "code not 200 (%d)" [.int r.1.1]), r.2)
    else (none, r.2)

/-- One iteration of the loop of `(*Sender).daemon`, on the oldest element of
`s.in`; nothing happens while the channel is empty. -/
def daemonIter (w : World) : World :=
  if w.halted then w else
  match w.logConfig.tg with
  | none => w
  | some s =>
    match s.in_.buf with
    | [] => w
    | text :: rest =>
      let w1 := w.setConfig fun c => { c with tg := some { s with in_ := { s.in_ with buf := rest } } }
      let r := s.Send text w1
      match r.1 with
      | some err => r.2.emit (.logPrintf "[TG FAIL] %v" [.str err])
      | none => r.2

/-- The rest of `(*Sender).daemon` once `s.in` is closed: the remaining
iterations, then `close(s.done)`. -/
def daemonExit (w : World) : World :=
  match w.logConfig.tg with
  | none => w
  | some s =>
    let w1 := daemonIter^[s.in_.buf.length] w
    (w1.setConfig fun c => { c with tg := c.tg.map fun s => { s with done := true } }).emit
      .closeTgDone

/-- Method `(*Sender).ToQueue`: `s.in <- text`. -/
def Sender.ToQueue (text : String) (w : World) : World :=
  match w.logConfig.tg with
  | none => nilDeref w
  | some s =>
    if s.in_.closed then w.halt (.runtimePanic "send on closed channel")
    else
      let y := w.yield
      let w1 := daemonIter^[max y.1 (s.in_.buf.length - s.in_.cap)] y.2
      (w1.setConfig fun c =>
        { c with tg := c.tg.map fun s => { s with in_ := { s.in_ with buf := s.in_.buf ++ [text] } } }).emit
        (.sendIn text)

/-- Method `(*Sender).Stop`: `close(s.in)`, then `<-s.done`. -/
def Sender.Stop (w : World) : World :=
  match w.logConfig.tg with
  | none => nilDeref w
  | some s =>
    if s.in_.closed then w.halt (.runtimePanic "close of closed channel")
    else
      let w1 := (w.setConfig fun c =>
        { c with tg := some { s with in_ := { s.in_ with closed := true } } }).emit .closeIn
      if s.done then w1 else daemonExit w1

/-! ## log.go: the pipeline -/

/-- Method `(*ErrMetrics).ErrGaugeInc`, called through `logConfig.errMetrics`. -/
def ErrGaugeInc (level : String) (w : World) : World :=
  if w.logConfig.errMetrics then w.emit (.errGaugeInc level) else nilDeref w

/-- Go `log.Fatal`: `log.Print` followed by `os.Exit(1)`. -/
def logFatal (s : String) (w : World) : World :=
  (w.emit (.logPrint s)).halt (.osExit 1)

/-- Statement `close(logConfig.logChan)`. -/
def closeLogChan (w : World) : World :=
  match w.logConfig.logChan with
  | none => w.halt (.runtimePanic "close of nil channel")
  | some ch =>
    if ch.closed then w.halt (.runtimePanic "close of closed channel")
    else (w.setConfig fun c => { c with logChan := some { ch with closed := true } }).emit
      .closeLogChan

def processLogMessage (lm : LogMessage) (w : World) : World :=
  let msg := lm.formattedMessage
  let w1 := w.emit (.logPrint (lm.coloredMessage w.colors msg))
  if lm.Level ≠ LogLevelLog then
    let w2 := if w1.logConfig.errMetricsEnabled then ErrGaugeInc lm.Level w1 else w1
    if w2.logConfig.tgEnabled then
      if lm.Level = LogLevelWarn ∧ w2.logConfig.tgWarnEnabled then
        Sender.ToQueue (Sprintf "[WARN] %s" [.str msg]) w2
      else if lm.Level = LogLevelCrit ∧ w2.logConfig.tgCritEnabled then
        Sender.ToQueue (Sprintf "[CRIT] %s" [.str msg]) w2
      else w2
    else w2
  else w1

/-- One iteration of the loop of `logProcessor`, on the oldest element of
`logChan`; nothing happens while the channel is empty. -/
def logProcessorIter (w : World) : World :=
  if w.halted then w else
  match w.logConfig.logChan with
  | none => w
  | some ch =>
    match ch.buf with
    | [] => w
    | msg :: rest =>
      processLogMessage msg
        (w.setConfig fun c => { c with logChan := some { ch with buf := rest } })

/-- The rest of `logProcessor` once `logChan` is closed: the remaining
iterations, then `close(logConfig.done)`. -/
def logProcessorExit (w : World) : World :=
  match w.logConfig.logChan with
  | none => w
  | some ch =>
    ((logProcessorIter^[ch.buf.length] w).setConfig fun c => { c with done := true }).emit
      .closeLogDone

/-- Function `EnableLogProcessor`; `go logProcessor()` makes the consumer
runnable. -/
def EnableLogProcessor (queue : Int) (w : World) : World :=
  if w.logConfig.logChan.isSome then w.halt (.goPanic "log processor already running")
  else if queue < 0 then w.halt (.runtimePanic "makechan: size out of range")
  else w.setConfig fun c =>
    { c with logChan := some (Chan.make LogMessage queue.toNat), done := false }

def StopLogProcessor (w : World) : World :=
  if w.logConfig.logChan.isSome then
    let w1 := closeLogChan w
    if w1.logConfig.done then w1 else logProcessorExit w1
  else w

/-- Function `EnableErrMetrics`; `registerErr` is the error of
`prometheus.Register`, `none` for nil. -/
def EnableErrMetrics (registerErr : Option String) (w : World) : World :=
  match registerErr with
  | some _ => w
  | none => w.setConfig fun c => { c with errMetrics := true, errMetricsEnabled := true }

def EnableTelegram (subsystem token chatID threadId : String) (queue : Int) (w : World) : World :=
  if queue < 0 then w.halt (.runtimePanic "makechan: size out of range")
  else w.setConfig fun c =>
    { c with tg := some (NewSender subsystem token chatID threadId queue.toNat),
             tgEnabled := true }

def EnableLogToTelegram (w : World) : World :=
  w.setConfig fun c => { c with tgLogEnabled := true }

def EnableWarnToTelegram (w : World) : World :=
  w.setConfig fun c => { c with tgWarnEnabled := true }

def EnableCritToTelegram (w : World) : World :=
  w.setConfig fun c => { c with tgCritEnabled := true }

def EnablePanicToTelegram (w : World) : World :=
  w.setConfig fun c => { c with tgPanicEnabled := true }

def EnableFatalToTelegram (w : World) : World :=
  w.setConfig fun c => { c with tgFatalEnabled := true }

def logMessage (lm : LogMessage) (w : World) : World :=
  match w.logConfig.logChan with
  | some ch =>
    if ch.closed then w.halt (.runtimePanic "send on closed channel")
    else
      let y := w.yield
      let w1 := logProcessorIter^[max y.1 (ch.buf.length - ch.cap)] y.2
      (w1.setConfig fun c =>
        { c with logChan := c.logChan.map fun ch => { ch with buf := ch.buf ++ [lm] } }).emit
        (.sendLogChan lm)
  | none => processLogMessage lm w

/-- One step of the goroutine `logProcessor`: an iteration of its loop when a
record is queued, `close(logConfig.done)` when the queue is closed and
drained, nothing while it is blocked on the empty open queue or after it has
exited. -/
def logProcessorStep (w : World) : World :=
  if w.halted then w else
  match w.logConfig.logChan with
  | none => w
  | some ch =>
    match ch.buf with
    | _ :: _ => logProcessorIter w
    | [] =>
      if ch.closed && !w.logConfig.done then
        (w.setConfig fun c => { c with done := true }).emit .closeLogDone
      else w

/-- The goroutine `logProcessor` running concurrently with a caller that does
not wait for it: as many steps as the scheduler chooses at this point.  What
it calls is appended to the trace under `logProcessor`.  A runtime panic in
the processor ends the process. -/
def logProcessorConcurrent (w : World) : World :=
  if w.logConfig.logChan.isSome then
    let y := w.yield
    let u := logProcessorStep^[y.1] { y.2 with trace := [] }
    { u with trace := w.trace ++ u.trace.map Event.fromLogProcessor }
  else w

/-- Function `handlePanicFatal`.  It closes the logging queue and goes on
without waiting for `logProcessor`, which keeps running: the scheduler may
run the processor after each of the statements that follow the close. -/
def handlePanicFatal (lm : LogMessage) (w : World) : World :=
  let w1 := if w.logConfig.logChan.isSome then logProcessorConcurrent (closeLogChan w) else w
  let w2 := logProcessorConcurrent
    (if w1.logConfig.errMetricsEnabled then ErrGaugeInc lm.Level w1 else w1)
  let msg := lm.formattedMessage
  let w3 :=
    if w2.logConfig.tgEnabled then
      let w2a := logProcessorConcurrent
        (if lm.Level = LogLevelPanic then
          if w2.logConfig.tgPanicEnabled then Sender.ToQueue (Sprintf "[PANIC] %s" [.str msg]) w2
          else w2
        else if lm.Level = LogLevelFatal then
          if w2.logConfig.tgFatalEnabled then Sender.ToQueue (Sprintf "[FATAL] %s" [.str msg]) w2
          else w2
        else w2)
      logProcessorConcurrent (Sender.Stop w2a)
    else w2
  if lm.Level = LogLevelFatal then logFatal (lm.coloredMessage w3.colors msg) w3
  else w3.halt (.goPanic (lm.coloredMessage w3.colors msg))

/-- First statement of `handlePanicFatal` (log.go:206-208), followed by the
scheduling point of the log processor. -/
def closePart (w : World) : World :=
  if w.logConfig.logChan.isSome then logProcessorConcurrent (closeLogChan w) else w

/-- Second statement of `handlePanicFatal` (log.go:209-211), followed by the
scheduling point of the log processor. -/
def metricPart (lm : LogMessage) (w1 : World) : World :=
  logProcessorConcurrent
    (if w1.logConfig.errMetricsEnabled then ErrGaugeInc lm.Level w1 else w1)

/-- The `switch` of `handlePanicFatal` (log.go:214-223), followed by the
scheduling point of the log processor. -/
def enqueuePart (lm : LogMessage) (w2 : World) : World :=
  logProcessorConcurrent
    (if lm.Level = LogLevelPanic then
      if w2.logConfig.tgPanicEnabled then
        Sender.ToQueue (Sprintf "[PANIC] %s" [.str lm.formattedMessage]) w2
      else w2
    else if lm.Level = LogLevelFatal then
      if w2.logConfig.tgFatalEnabled then
        Sender.ToQueue (Sprintf "[FATAL] %s" [.str lm.formattedMessage]) w2
      else w2
    else w2)

/-- The alerting block of `handlePanicFatal` (log.go:213-225). -/
def alertPart (lm : LogMessage) (w2 : World) : World :=
  if w2.logConfig.tgEnabled then logProcessorConcurrent (Sender.Stop (enqueuePart lm w2))
  else w2

/-- Last statement of `handlePanicFatal` (log.go:226-230). -/
def terminalPart (lm : LogMessage) (w3 : World) : World :=
  if lm.Level = LogLevelFatal then logFatal (lm.coloredMessage w3.colors lm.formattedMessage) w3
  else w3.halt (.goPanic (lm.coloredMessage w3.colors lm.formattedMessage))

/-! The exported entry points; `caller` is what `runtime.Caller(2)` reports. -/

def Log (caller : Option (String × Int)) (v : List Val) (w : World) : World :=
  logMessage ⟨LogLevelLog, getCallerInfo caller, false, "", v⟩ w

def Logf (caller : Option (String × Int)) (format : String) (v : List Val) (w : World) : World :=
  logMessage ⟨LogLevelLog, getCallerInfo caller, true, format, v⟩ w

def Warn (caller : Option (String × Int)) (v : List Val) (w : World) : World :=
  logMessage ⟨LogLevelWarn, getCallerInfo caller, false, "", v⟩ w

def Warnf (caller : Option (String × Int)) (format : String) (v : List Val) (w : World) : World :=
  logMessage ⟨LogLevelWarn, getCallerInfo caller, true, format, v⟩ w

def Crit (caller : Option (String × Int)) (v : List Val) (w : World) : World :=
  logMessage ⟨LogLevelCrit, getCallerInfo caller, false, "", v⟩ w

def Critf (caller : Option (String × Int)) (format : String) (v : List Val) (w : World) : World :=
  logMessage ⟨LogLevelCrit, getCallerInfo caller, true, format, v⟩ w

def Panic (caller : Option (String × Int)) (v : List Val) (w : World) : World :=
  handlePanicFatal ⟨LogLevelPanic, getCallerInfo caller, false, "", v⟩ w

def Panicf (caller : Option (String × Int)) (format : String) (v : List Val) (w : World) : World :=
  handlePanicFatal ⟨LogLevelPanic, getCallerInfo caller, true, format, v⟩ w

def Fatal (caller : Option (String × Int)) (v : List Val) (w : World) : World :=
  handlePanicFatal ⟨LogLevelFatal, getCallerInfo caller, false, "", v⟩ w

def Fatalf (caller : Option (String × Int)) (format : String) (v : List Val) (w : World) : World :=
  handlePanicFatal ⟨LogLevelFatal, getCallerInfo caller, true, format, v⟩ w


/-! ## Reference definitions for the wire format -/

/-- Upper-case hexadecimal digit. -/
def hexDigit (n : Nat) : Char :=
  if n < 10 then Char.ofNat (48 + n) else Char.ofNat (55 + n)

/-- Go `url.QueryEscape` on one byte: letters, digits, `-`, `_`, `.` and `~`
stay, a space becomes `+`, every other byte becomes `%XX`. -/
def escapeByte (c : Char) : List Char :=
  if c.isAlphanum ∨ c = '-' ∨ c = '_' ∨ c = '.' ∨ c = '~' then [c]
  else if c = ' ' then ['+']
  else ['%', hexDigit (c.toNat / 16), hexDigit (c.toNat % 16)]

/-- Go `url.QueryEscape`: the encoding of a value in a body of type
`application/x-www-form-urlencoded`. -/
def QueryEscape (s : String) : String :=
  String.mk (s.data.flatMap escapeByte)

/-- The request body that the wire contract asks for. -/
def wireBody (chatID threadID text : String) : String :=
  "chat_id=" ++ chatID ++ "&message_thread_id=" ++ threadID ++ "&text=" ++ QueryEscape text

/-- Each string preceded by one space. -/
def spaced : List String → String
  | [] => ""
  | a :: as => " " ++ a ++ spaced as

/-! ## Descriptions of the alert consumer's work -/

/-- The request of `(*Sender).Send` for one text. -/
def sendRequest (s : Sender) (text : String) : Request :=
  { method := "POST"
    uri := "https://api.telegram.org/bot" ++ s.token ++ "/sendMessage"
    body := "chat_id=" ++ s.chatID ++ "&message_thread_id=" ++ s.threadId ++ "&text=" ++ text
    headers := [("Content-Type", "application/x-www-form-urlencoded")] }

/-- The error of `(*Sender).Send` for one answer of the network. -/
def sendError (r : NetReply) : Option String :=
  match r with
  | .error msg => some msg
  | .status code => if code ≠ 200 then some (Sprintf "code not 200 (%d)" [.int code]) else none

/-- The calls of one iteration of the daemon. -/
def attempt (s : Sender) (r : NetReply) (text : String) : List Event :=
  .clientDoTimeout (sendRequest s text) (Second * 10) ::
    (match sendError r with
     | some err => [.logPrintf "[TG FAIL] %v" [.str err]]
     | none => [])

/-- The calls of the daemon for a list of texts, the first HTTP call being
number `n`. -/
def attempts (s : Sender) (net : Nat → NetReply) : Nat → List String → List Event
  | _, [] => []
  | n, t :: ts => attempt s (net n) t ++ attempts s net (n + 1) ts

/-- The world after the daemon has consumed the `k` oldest texts of `s.in`. -/
def World.delivered (k : Nat) (s : Sender) (w : World) : World :=
  { w with
    logConfig := { w.logConfig with tg := some { s with in_ := { s.in_ with buf := s.in_.buf.drop k } } }
    netCalls := w.netCalls + min k s.in_.buf.length
    trace := w.trace ++ attempts s w.net w.netCalls (s.in_.buf.take k) }

/-! ## Views of a trace and conditions on the process -/

/-- The text of an event `s.in <- text`. -/
def Event.alert? : Event → Option String
  | .sendIn t => some t
  | _ => none

/-- The label of an increment of the error gauge. -/
def Event.metric? : Event → Option String
  | .errGaugeInc l => some l
  | _ => none

/-- The string handed to `log.Print`. -/
def Event.print? : Event → Option String
  | .logPrint m => some m
  | _ => none

/-- The request handed to the HTTP client. -/
def Event.post? : Event → Option Request
  | .clientDoTimeout r _ => some r
  | .clientDo r => some r
  | _ => none

/-- The texts that `s.in` accepted, in order. -/
def alertsOf (tr : List Event) : List String := tr.filterMap Event.alert?

/-- The labels of the increments of the error gauge, in order. -/
def metricsOf (tr : List Event) : List String := tr.filterMap Event.metric?

/-- The strings handed to `log.Print`, in order. -/
def printsOf (tr : List Event) : List String := tr.filterMap Event.print?

/-- The HTTP requests handed to the client, in order. -/
def postsOf (tr : List Event) : List Request := tr.filterMap Event.post?

/-- The effects of processing log records: writes of `log.Print`, increments
of the error gauge and texts accepted by the alert queue. -/
def Event.isOutput : Event → Bool
  | .logPrint _ => true
  | .errGaugeInc _ => true
  | .sendIn _ => true
  | _ => false

/-- The effects of processing log records in a trace, in order. -/
def outputs (tr : List Event) : List Event := tr.filter Event.isOutput

/-- The alert pipeline is running: the sender exists, `s.in` is open and the
daemon has not exited. -/
def World.tgOpen (w : World) : Bool :=
  match w.logConfig.tg with
  | some s => !s.in_.closed && !s.done
  | none => false

/-- The logging queue has not been closed. -/
def World.logOpen (w : World) : Bool :=
  match w.logConfig.logChan with
  | some ch => !ch.closed
  | none => true

/-- The process is running, the metrics pointer is set when metrics are
enabled, and the alert pipeline is running when alerting is enabled. -/
def World.ready (w : World) : Bool :=
  !w.halted && (!w.logConfig.errMetricsEnabled || w.logConfig.errMetrics)
    && (!w.logConfig.tgEnabled || w.tgOpen)

/-- The toggles of a configuration. -/
def LogConfig.toggles (c : LogConfig) : List Bool :=
  [c.tgEnabled, c.tgLogEnabled, c.tgWarnEnabled, c.tgCritEnabled, c.tgPanicEnabled,
   c.tgFatalEnabled, c.errMetrics, c.errMetricsEnabled]

/-- The effects of `processLogMessage` for one record under given toggles. -/
def recordEffects (c : LogConfig) (colors : Colors) (lm : LogMessage) : List Event :=
  .logPrint (lm.coloredMessage colors lm.formattedMessage) ::
    (if lm.Level ≠ LogLevelLog then
      (if c.errMetricsEnabled then [.errGaugeInc lm.Level] else []) ++
      (if c.tgEnabled then
        if lm.Level = LogLevelWarn ∧ c.tgWarnEnabled then
          [.sendIn ("[WARN] " ++ lm.formattedMessage)]
        else if lm.Level = LogLevelCrit ∧ c.tgCritEnabled then
          [.sendIn ("[CRIT] " ++ lm.formattedMessage)]
        else []
      else [])
    else [])

/-- The world `u` is running and differs from `w` only in what the consumers
and the environment change: traces, queue contents and counters. -/
def Frame (w u : World) : Prop :=
  u.halted = false ∧ u.tgOpen = w.tgOpen ∧ u.logConfig.toggles = w.logConfig.toggles
    ∧ u.logConfig.logChan = w.logConfig.logChan ∧ u.logConfig.done = w.logConfig.done
    ∧ u.colors = w.colors

/-! ## Sample runs -/

def sampleColors : Colors := ⟨"\x1b[33m", "\x1b[31m", "\x1b[36m", "\x1b[35m", "\x1b[0m"⟩

/-- A fresh process whose first HTTP call is answered with status 200 and
whose later calls time out. -/
def sampleWorld : World :=
  World.init sampleColors (fun k => if k = 0 then .status 200 else .error "timeout") (fun _ => 0)

/-- The sample process with Telegram alerting switched on. -/
def sampleTg : World := EnableTelegram "svc" "T" "1" "2" 1 sampleWorld

/-- The world `u` is running and has the toggles, the colours, the state of
the alert pipeline and the state of `logConfig.done` of `w`. -/
def Kept (w u : World) : Prop :=
  u.halted = false ∧ u.tgOpen = w.tgOpen ∧ u.logConfig.toggles = w.logConfig.toggles
    ∧ u.logConfig.done = w.logConfig.done ∧ u.colors = w.colors

/-- The world `u` is running and has the toggles, the colours and the state
of the alert pipeline of `w`. -/
def Live (w u : World) : Prop :=
  u.halted = false ∧ u.tgOpen = w.tgOpen ∧ u.logConfig.toggles = w.logConfig.toggles
    ∧ u.colors = w.colors

/-- The step `f` only appends to the trace, and what it appends holds no
increment of the error gauge by the caller. -/
def Quiet (f : World → World) : Prop :=
  ∀ v, ∃ evs, (f v).trace = v.trace ++ evs ∧ metricsOf evs = []

/-- No record is waiting on the logging queue. -/
def World.logIdle (w : World) : Bool :=
  match w.logConfig.logChan with
  | some ch => ch.buf.isEmpty
  | none => true

/-- The sample process with everything switched on: the log processor with a
queue of 2, metrics, and alerting for every level with a queue of 1. -/
def sampleAll : World :=
  EnableFatalToTelegram (EnablePanicToTelegram (EnableCritToTelegram (EnableWarnToTelegram
    (EnableLogToTelegram (EnableTelegram "svc" "T" "1" "2" 1
      (EnableErrMetrics none (EnableLogProcessor 2 sampleWorld)))))))

/-- The sample process with metrics and alerting for `WARN` only, the log
processor not started. -/
def sampleWarnOnly : World :=
  EnableWarnToTelegram (EnableTelegram "svc" "T" "1" "2" 1 (EnableErrMetrics none sampleWorld))

/-- A process with the log processor started (queue of 2), metrics, and
alerting for `WARN` and `FATAL` (queue of 1), every HTTP call answered with
status 200; the scheduler runs a consumer only at its sixth scheduling point,
for one step. -/
def raceWorld : World :=
  EnableFatalToTelegram (EnableWarnToTelegram (EnableTelegram "svc" "T" "1" "2" 1
    (EnableErrMetrics none (EnableLogProcessor 2
      (World.init sampleColors (fun _ => .status 200) (fun k => if k = 5 then 1 else 0))))))

/-- The alert of a terminal record: the prefixed text when the toggle of the
record's level is on. -/
def terminalAlert (c : LogConfig) (lm : LogMessage) : List String :=
  if lm.Level = LogLevelPanic then
    if c.tgPanicEnabled then ["[PANIC] " ++ lm.formattedMessage] else []
  else if lm.Level = LogLevelFatal then
    if c.tgFatalEnabled then ["[FATAL] " ++ lm.formattedMessage] else []
  else []

/-- The last calls of `handlePanicFatal`. -/
def terminalAction (colors : Colors) (lm : LogMessage) : List Event :=
  if lm.Level = LogLevelFatal then
    [.logPrint (lm.coloredMessage colors lm.formattedMessage), .osExit 1]
  else [.goPanic (lm.coloredMessage colors lm.formattedMessage)]

/-! ## Rendering -/

theorem doPrintf_literal (c : Char) (rest : List Char) (a : List Val) (hc : c ≠ '%') :
    doPrintf (c :: rest) a = c.toString ++ doPrintf rest a := by
  rw [doPrintf.eq_def]
  simp [hc]

theorem Sprintf_tag (tag msg : String) (h : '%' ∉ tag.data) :
    Sprintf (tag ++ "%s") [.str msg] = tag ++ msg := by
  obtain ⟨cs⟩ := tag
  simp only [Sprintf, String.data_append]
  apply String.ext
  induction cs with
  | nil => simp [doPrintf, printArg, extraArgs]
  | cons c cs ih =>
    have hc : c ≠ '%' := fun e => h (by simp [e])
    have hcs : '%' ∉ cs := fun e => h (by simp [e])
    have := ih hcs
    simp only [String.data_append] at this ⊢
    rw [List.cons_append, doPrintf_literal _ _ _ hc]
    simp [this, Char.toString, String.singleton]

theorem sprintlnTail_strs (xs : List String) :
    sprintlnTail (xs.map Val.str) = spaced xs := by
  induction xs with
  | nil => rfl
  | cons a as ih => simp [sprintlnTail, spaced, ih, Val.fmtV, String.append_assoc]

/-- C6. An unformatted record with origin `o` and string arguments renders as
`o`, then every argument preceded by one space, then one newline; with no
argument it renders as `o` and a newline.  `WARN("disk","at","90%")` renders
`o ++ " disk at 90%\n"`, `CRIT("disk full")` renders `o ++ " disk full\n"`,
and the alert text computed from the latter is `"[CRIT] " ++ o ++ " disk full\n"`. -/
theorem C6_unformatted_rendering (lvl : LogLevel) (o fmt : String) (args : List String) :
    (LogMessage.mk lvl o false fmt (args.map Val.str)).formattedMessage
        = o ++ spaced args ++ "\n"
    ∧ (LogMessage.mk lvl o false fmt []).formattedMessage = o ++ "\n"
    ∧ (LogMessage.mk LogLevelWarn o false "" [.str "disk", .str "at", .str "90%"]).formattedMessage
        = o ++ " disk at 90%\n"
    ∧ (LogMessage.mk LogLevelCrit o false "" [.str "disk full"]).formattedMessage
        = o ++ " disk full\n"
    ∧ Sprintf "[CRIT] %s"
          [.str (LogMessage.mk LogLevelCrit o false "" [.str "disk full"]).formattedMessage]
        = "[CRIT] " ++ o ++ " disk full\n" := by
  refine ⟨?_, ?_, ?_, ?_, ?_⟩
  · simp [LogMessage.formattedMessage, Sprintln, sprintlnTail_strs, Val.fmtV]
  · simp [LogMessage.formattedMessage, Sprintln, sprintlnTail, Val.fmtV]
  · simp [LogMessage.formattedMessage, Sprintln, sprintlnTail, Val.fmtV, String.append_assoc]
  · simp [LogMessage.formattedMessage, Sprintln, sprintlnTail, Val.fmtV, String.append_assoc]
  · have h := Sprintf_tag "[CRIT] " (o ++ " disk full\n") (by decide)
    simp only [LogMessage.formattedMessage, Sprintln, sprintlnTail, Val.fmtV]
    simpa [String.append_assoc] using h

/-- An origin without `%` is rendered as it is, before the interpolation of
the record's own format. -/
theorem formattedMessage_plain_origin (lvl : LogLevel) (o format : String) (args : List Val)
    (h : '%' ∉ o.data) :
    (LogMessage.mk lvl o true format args).formattedMessage = o ++ " " ++ Sprintf format args := by
  obtain ⟨cs⟩ := o
  simp only [LogMessage.formattedMessage, Sprintf, String.data_append, if_true]
  apply String.ext
  induction cs with
  | nil =>
    have e : ([] ++ " ".data ++ format.data) = ' ' :: format.data := rfl
    rw [e, doPrintf_literal _ _ _ (by decide)]
    rfl
  | cons c cs ih =>
    have hc : c ≠ '%' := fun e => h (by simp [e])
    have hcs : '%' ∉ cs := fun e => h (by simp [e])
    have := ih hcs
    simp only [String.data_append] at this ⊢
    rw [List.cons_append, List.cons_append, doPrintf_literal _ _ _ hc]
    simp only [List.append_assoc, List.singleton_append] at this
    simp [this, Char.toString, String.singleton]

/-- C5. `Warnf("x=%d", 5)` called from line 7 of `/srv/100%/main.go`: the
origin is `100%/main.go:7`, and `formattedMessage` interpolates the origin as
part of the format, so the rendered text is not the origin followed by the
interpolation of the record's own format. -/
theorem C5_origin_is_interpolated :
    getCallerInfo (some ("/srv/100%/main.go", 7)) = "100%/main.go:7"
    ∧ (LogMessage.mk LogLevelWarn "100%/main.go:7" true "x=%d" [.int 5]).formattedMessage
        = "100%!/(int=5)main.go:7 x=%!d(MISSING)"
    ∧ "100%/main.go:7" ++ " " ++ Sprintf "x=%d" [.int 5] = "100%/main.go:7 x=5"
    ∧ (LogMessage.mk LogLevelWarn "100%/main.go:7" true "x=%d" [.int 5]).formattedMessage
        ≠ "100%/main.go:7" ++ " " ++ Sprintf "x=%d" [.int 5] := by
  decide

/-! ## Origin shortening -/

theorem shortLoop_done (file : List Char) (i j : Nat) (short : List Char) (hj : 2 ≤ j) :
    shortLoop file i j short = short := by
  cases i with
  | zero => rfl
  | succ i => simp [shortLoop, Nat.not_lt.mpr hj]

theorem shortLoop_hit (file : List Char) (i j : Nat) (short : List Char) (hj : j < 2)
    (h : file[i + 1]? = some '/') :
    shortLoop file (i + 1) j short = shortLoop file i (j + 1) (file.drop (i + 1 + 1)) := by
  simp [shortLoop, hj, h]

theorem shortLoop_miss (file : List Char) (i j : Nat) (short : List Char)
    (h : file[i + 1]? ≠ some '/') :
    shortLoop file (i + 1) j short = shortLoop file i j short := by
  by_cases hj : j < 2
  · simp [shortLoop, hj, h]
  · rw [shortLoop_done _ _ _ _ (Nat.not_lt.mp hj), shortLoop_done _ _ _ _ (Nat.not_lt.mp hj)]

theorem getElem?_mid (front back : List Char) (c : Char) :
    (front ++ c :: back)[front.length]? = some c := by
  rw [List.getElem?_append_right (Nat.le_refl _)]
  simp

/-- A stretch without `'/'` is passed over: `seg` sits at the indexes
`m + 1, ..., m + seg.length`. -/
theorem shortLoop_skip (front seg back : List Char) (m j : Nat) (short : List Char)
    (hm : front.length = m + 1) (hseg : '/' ∉ seg) :
    shortLoop (front ++ seg ++ back) (m + seg.length) j short
      = shortLoop (front ++ seg ++ back) m j short := by
  induction seg using List.reverseRecOn generalizing back with
  | nil => simp
  | append_singleton seg c ih =>
    have hc : c ≠ '/' := fun e => hseg (by simp [e])
    have hs : '/' ∉ seg := fun e => hseg (by simp [e])
    have hget : (front ++ (seg ++ [c]) ++ back)[m + seg.length + 1]? = some c := by
      have l : m + seg.length + 1 = (front ++ seg).length := by simp [hm]; omega
      have e : front ++ (seg ++ [c]) ++ back = (front ++ seg) ++ c :: back := by simp
      rw [l, e]
      exact getElem?_mid _ _ _
    have e : m + (seg ++ [c]).length = m + seg.length + 1 := by simp; omega
    rw [e, shortLoop_miss _ _ _ _ (by rw [hget]; simpa using hc)]
    have := ih (c :: back) hs
    simpa [List.append_assoc] using this

/-- Two separators at indexes greater than 0: the loop stops at the second
one from the end. -/
theorem shortName_two (pre mid suf : List Char) (hpre : pre ≠ [])
    (hmid : '/' ∉ mid) (hsuf : '/' ∉ suf) :
    shortName (pre ++ '/' :: (mid ++ '/' :: suf)) = mid ++ '/' :: suf := by
  obtain ⟨a, ha⟩ : ∃ a, pre.length = a + 1 := by
    cases pre with
    | nil => exact absurd rfl hpre
    | cons p ps => exact ⟨ps.length, rfl⟩
  unfold shortName
  have hlen : (pre ++ '/' :: (mid ++ '/' :: suf)).length - 1 = (a + 1 + mid.length + 1) + suf.length := by
    simp [ha]; omega
  rw [hlen]
  have e1 : pre ++ '/' :: (mid ++ '/' :: suf) = (pre ++ '/' :: mid ++ ['/']) ++ suf ++ [] := by
    simp
  have s1 := shortLoop_skip (pre ++ '/' :: mid ++ ['/']) suf [] (a + 1 + mid.length + 1) 0
    (pre ++ '/' :: (mid ++ '/' :: suf)) (by simp [ha]; omega) hsuf
  rw [← e1] at s1
  rw [s1]
  have g1 : (pre ++ '/' :: (mid ++ '/' :: suf))[a + 1 + mid.length + 1]? = some '/' := by
    have e : pre ++ '/' :: (mid ++ '/' :: suf) = (pre ++ '/' :: mid) ++ '/' :: suf := by simp
    have l : a + 1 + mid.length + 1 = (pre ++ '/' :: mid).length := by simp [ha]; omega
    rw [e, l]
    exact getElem?_mid _ _ _
  rw [shortLoop_hit _ _ _ _ (by decide) g1]
  have e2 : pre ++ '/' :: (mid ++ '/' :: suf) = (pre ++ ['/']) ++ mid ++ ('/' :: suf) := by
    simp
  have s2 := shortLoop_skip (pre ++ ['/']) mid ('/' :: suf) (a + 1) (0 + 1)
    ((pre ++ '/' :: (mid ++ '/' :: suf)).drop (a + 1 + mid.length + 1 + 1)) (by simp [ha]) hmid
  rw [← e2] at s2
  rw [s2]
  have g2 : (pre ++ '/' :: (mid ++ '/' :: suf))[a + 1]? = some '/' := by
    rw [← ha]
    exact getElem?_mid _ _ _
  rw [shortLoop_hit _ _ _ _ (by decide) g2, shortLoop_done _ _ _ _ (by decide)]
  have : a + 1 + 1 = (pre ++ ['/']).length := by simp [ha]
  rw [this, e2, List.append_assoc, List.drop_left]

/-- One separator at an index greater than 0: the rest of the path is
scanned down to index 1 without another hit. -/
theorem shortName_one (pre suf : List Char) (hpre : pre ≠ [])
    (htail : '/' ∉ pre.tail) (hsuf : '/' ∉ suf) :
    shortName (pre ++ '/' :: suf) = suf := by
  obtain ⟨p, ps, rfl⟩ : ∃ p ps, pre = p :: ps := by
    cases pre with
    | nil => exact absurd rfl hpre
    | cons p ps => exact ⟨p, ps, rfl⟩
  simp only [List.tail_cons] at htail
  unfold shortName
  have hlen : (p :: ps ++ '/' :: suf).length - 1 = (ps.length + 1) + suf.length := by
    simp; omega
  rw [hlen]
  have e1 : p :: ps ++ '/' :: suf = (p :: ps ++ ['/']) ++ suf ++ [] := by simp
  have s1 := shortLoop_skip (p :: ps ++ ['/']) suf [] (ps.length + 1) 0
    (p :: ps ++ '/' :: suf) (by simp) hsuf
  rw [← e1] at s1
  rw [s1]
  have g1 : (p :: ps ++ '/' :: suf)[ps.length + 1]? = some '/' := by
    have := getElem?_mid (p :: ps) suf '/'
    simpa using this
  rw [shortLoop_hit _ _ _ _ (by decide) g1]
  have e2 : p :: ps ++ '/' :: suf = [p] ++ ps ++ ('/' :: suf) := by simp
  have s2 := shortLoop_skip [p] ps ('/' :: suf) 0 (0 + 1)
    ((p :: ps ++ '/' :: suf).drop (ps.length + 1 + 1)) (by simp) htail
  rw [← e2] at s2
  rw [Nat.zero_add] at s2
  rw [s2]
  simp only [shortLoop]
  have : ps.length + 1 + 1 = (p :: ps ++ ['/']).length := by simp
  rw [this]
  have e3 : p :: ps ++ '/' :: suf = (p :: ps ++ ['/']) ++ suf := by simp
  rw [e3, List.drop_left]

/-- No separator at an index greater than 0: `short` stays the whole path. -/
theorem shortName_none (c : Char) (rest : List Char) (h : '/' ∉ rest) :
    shortName (c :: rest) = c :: rest := by
  unfold shortName
  have s := shortLoop_skip [c] rest [] 0 0 (c :: rest) (by simp) h
  simp only [List.singleton_append, List.append_nil, Nat.zero_add] at s
  simp only [List.length_cons, Nat.add_sub_cancel]
  rw [s]
  rfl

theorem shortLoop_suffix (file : List Char) :
    ∀ (i j : Nat) (short : List Char), short <:+ file → shortLoop file i j short <:+ file := by
  intro i
  induction i with
  | zero => intro j short h; exact h
  | succ i ih =>
    intro j short h
    unfold shortLoop
    split
    · split
      · exact ih _ _ (List.drop_suffix _ _)
      · exact ih _ _ h
    · exact h

theorem count_drop_step (file : List Char) (n : Nat) :
    (file.drop n).count '/'
      = (if file[n]? = some '/' then 1 else 0) + (file.drop (n + 1)).count '/' := by
  by_cases h : n < file.length
  · rw [List.drop_eq_getElem_cons h, List.getElem?_eq_getElem h, List.count_cons]
    by_cases e : file[n] = '/'
    · simp [e]; omega
    · simp [e]
  · have h1 : file.length ≤ n := Nat.not_lt.mp h
    rw [List.drop_of_length_le h1, List.drop_of_length_le (by omega),
      List.getElem?_eq_none h1]
    simp

/-- What the loop of `getCallerInfo` keeps true of `(i, j, short)`. -/
theorem shortLoop_count (file : List Char) :
    ∀ (i j : Nat) (short : List Char),
      (j = 0 → short = file ∧ (file.drop (i + 1)).count '/' = 0) →
      (j = 1 → short.count '/' = 0 ∧ (file.drop (i + 1)).count '/' ≤ 1) →
      (2 ≤ j → short.count '/' ≤ 1) →
      (shortLoop file i j short).count '/' ≤ 1 := by
  intro i
  induction i with
  | zero =>
    intro j short h0 h1 h2
    simp only [shortLoop]
    rcases Nat.lt_or_ge j 2 with hj | hj
    · rcases (by omega : j = 0 ∨ j = 1) with e | e
      · obtain ⟨hs, hc⟩ := h0 e
        have := count_drop_step file 0
        rw [List.drop_zero] at this
        rw [hs, this]
        simp only [Nat.zero_add] at hc
        split <;> omega
      · have := (h1 e).1
        omega
    · exact h2 hj
  | succ i ih =>
    intro j short h0 h1 h2
    have step := count_drop_step file (i + 1)
    unfold shortLoop
    split
    · rename_i hj
      split
      · rename_i hit
        rw [if_pos hit] at step
        apply ih
        · intro e; omega
        · intro e
          have e0 : j = 0 := by omega
          have := (h0 e0).2
          constructor <;> omega
        · intro _
          have e1 : j = 1 := by omega
          have := (h1 e1).2
          omega
      · rename_i miss
        rw [if_neg miss] at step
        apply ih
        · intro e
          have := h0 e
          exact ⟨this.1, by omega⟩
        · intro e
          have := h1 e
          exact ⟨this.1, by omega⟩
        · intro e; omega
    · rename_i hj
      exact h2 (by omega)

theorem shortName_suffix (file : List Char) : shortName file <:+ file :=
  shortLoop_suffix file _ _ _ (List.suffix_refl _)

theorem shortName_count (file : List Char) : (shortName file).count '/' ≤ 1 := by
  apply shortLoop_count
  · intro _
    refine ⟨rfl, ?_⟩
    rw [List.drop_of_length_le (by omega)]
    rfl
  · intro e; cases e
  · intro e; cases e

/-- C10. When the runtime cannot report the call site, `getCallerInfo` returns
`"unknown file"`.  Otherwise it returns `short`, a colon and the line in
decimal, where `short` is a suffix of the file path with at most one `'/'`:
the part after the second-to-last `'/'` among those at an index greater than
0, the part after the only such `'/'` when there is exactly one, and the whole
path when there is none. -/
theorem C10_getCallerInfo (f : String) (n : Int) :
    getCallerInfo none = "unknown file"
    ∧ getCallerInfo (some (f, n)) = String.mk (shortName f.data) ++ ":" ++ toString n
    ∧ shortName f.data <:+ f.data
    ∧ (shortName f.data).count '/' ≤ 1
    ∧ (∀ pre mid suf : List Char, f.data = pre ++ '/' :: (mid ++ '/' :: suf) →
        pre ≠ [] → '/' ∉ mid → '/' ∉ suf →
        getCallerInfo (some (f, n)) = String.mk (mid ++ '/' :: suf) ++ ":" ++ toString n)
    ∧ (∀ pre suf : List Char, f.data = pre ++ '/' :: suf →
        pre ≠ [] → '/' ∉ pre.tail → '/' ∉ suf →
        getCallerInfo (some (f, n)) = String.mk suf ++ ":" ++ toString n)
    ∧ ('/' ∉ f.data.tail → getCallerInfo (some (f, n)) = f ++ ":" ++ toString n) := by
  refine ⟨rfl, rfl, shortName_suffix _, shortName_count _, ?_, ?_, ?_⟩
  · intro pre mid suf hf hpre hmid hsuf
    simp only [getCallerInfo, Itoa]
    rw [hf, shortName_two pre mid suf hpre hmid hsuf]
  · intro pre suf hf hpre htail hsuf
    simp only [getCallerInfo, Itoa]
    rw [hf, shortName_one pre suf hpre htail hsuf]
  · intro h
    simp only [getCallerInfo, Itoa]
    obtain ⟨cs⟩ := f
    cases cs with
    | nil => rfl
    | cons c rest =>
      simp only [List.tail_cons] at h
      rw [shortName_none c rest h]

theorem C10_getCallerInfo_witness :
    getCallerInfo (some ("/home/u/proj/pkg/main.go", 12)) = "pkg/main.go:12"
    ∧ getCallerInfo (some ("/srv/main.go", 40)) = "main.go:40"
    ∧ getCallerInfo (some ("main.go", 7)) = "main.go:7" :=
  ⟨(C10_getCallerInfo "/home/u/proj/pkg/main.go" 12).2.2.2.2.1
      "/home/u/proj".data "pkg".data "main.go".data (by decide) (by decide) (by decide)
      (by decide),
   (C10_getCallerInfo "/srv/main.go" 40).2.2.2.2.2.1
      "/srv".data "main.go".data (by decide) (by decide) (by decide) (by decide),
   (C10_getCallerInfo "main.go" 7).2.2.2.2.2.2 (by decide)⟩

/-! ## The alert consumer -/

theorem Send_eq (s : Sender) (text : String) (w : World) (hw : w.halted = false) :
    s.Send text w =
      (sendError (w.net w.netCalls),
       { w with netCalls := w.netCalls + 1
                trace := w.trace ++ [.clientDoTimeout (sendRequest s text) (Second * 10)] }) := by
  have hpos : Second * 10 > 0 := by decide
  cases hr : w.net w.netCalls with
  | error msg =>
    simp [Sender.Send, Web.Post, hr, hw, hpos, World.emit, sendError, sendRequest, headerSet]
  | status code =>
    by_cases hc : code = 200
    · simp [Sender.Send, Web.Post, hr, hw, hpos, World.emit, sendError, sendRequest, headerSet, hc]
    · simp [Sender.Send, Web.Post, hr, hw, hpos, World.emit, sendError, sendRequest, headerSet, hc]

theorem daemonIter_nil (s : Sender) (w : World) (htg : w.logConfig.tg = some s)
    (hb : s.in_.buf = []) : daemonIter w = w := by
  simp [daemonIter, htg, hb]

theorem daemonIter_cons (s : Sender) (t : String) (rest : List String) (w : World)
    (hw : w.halted = false) (htg : w.logConfig.tg = some s) (hb : s.in_.buf = t :: rest) :
    daemonIter w = w.delivered 1 s := by
  have hw1 : (w.setConfig fun c =>
      { c with tg := some { s with in_ := { s.in_ with buf := rest } } }).halted = false := by
    simp [World.setConfig, hw]
  unfold daemonIter
  simp only [hw, htg, hb]
  rw [Send_eq _ _ _ hw1]
  cases h : sendError (w.net w.netCalls) <;>
    simp [World.setConfig, hw, World.delivered, hb, attempt, attempts, World.emit, h]

theorem attempts_in (s : Sender) (c : Chan String) (net : Nat → NetReply) (n : Nat)
    (ts : List String) : attempts { s with in_ := c } net n ts = attempts s net n ts := by
  induction ts generalizing n with
  | nil => rfl
  | cons t ts ih => simp [attempts, attempt, sendRequest, ih]

theorem delivered_zero (s : Sender) (w : World) (htg : w.logConfig.tg = some s) :
    w.delivered 0 s = w := by
  apply World.ext <;> simp [World.delivered, attempts]
  apply LogConfig.ext <;> simp [htg]

/-- The daemon's iterations: `k` iterations consume the `k` oldest texts, one
HTTP call each. -/
theorem daemonIter_iterate (k : Nat) :
    ∀ (s : Sender) (w : World), w.halted = false → w.logConfig.tg = some s →
      daemonIter^[k] w = w.delivered k s := by
  induction k with
  | zero => intro s w _ htg; simp [delivered_zero s w htg]
  | succ k ih =>
    intro s w hw htg
    rw [Function.iterate_succ_apply]
    cases hb : s.in_.buf with
    | nil =>
      rw [daemonIter_nil s w htg hb, ih s w hw htg]
      apply World.ext <;> simp [World.delivered, hb, attempts]
    | cons t rest =>
      rw [daemonIter_cons s t rest w hw htg hb]
      rw [ih { s with in_ := { s.in_ with buf := s.in_.buf.drop 1 } } (w.delivered 1 s)
        (by simp [World.delivered, hw]) (by simp [World.delivered])]
      apply World.ext <;> simp [World.delivered, hb, attempts, attempts_in]
      omega

theorem ToQueue_eq (text : String) (s : Sender) (w : World) (hw : w.halted = false)
    (htg : w.logConfig.tg = some s) (hopen : s.in_.closed = false) :
    Sender.ToQueue text w =
      { w with
        logConfig := { w.logConfig with tg := some { s with in_ := { s.in_ with
          buf := s.in_.buf.drop (max (w.sched w.yields) (s.in_.buf.length - s.in_.cap)) ++ [text] } } }
        netCalls := w.netCalls
          + min (max (w.sched w.yields) (s.in_.buf.length - s.in_.cap)) s.in_.buf.length
        trace := w.trace
          ++ attempts s w.net w.netCalls
              (s.in_.buf.take (max (w.sched w.yields) (s.in_.buf.length - s.in_.cap)))
          ++ [.sendIn text]
        yields := w.yields + 1 } := by
  unfold Sender.ToQueue
  simp only [htg, hopen, World.yield, hw]
  rw [daemonIter_iterate _ s _ (by simp [hw]) (by simp [htg])]
  apply World.ext <;> simp [World.delivered, World.setConfig, World.emit, hw, hopen]

theorem daemonExit_eq (s : Sender) (w : World) (hw : w.halted = false)
    (htg : w.logConfig.tg = some s) :
    daemonExit w =
      { w with
        logConfig := { w.logConfig with tg := some { s with
          in_ := { s.in_ with buf := [] }, done := true } }
        netCalls := w.netCalls + s.in_.buf.length
        trace := w.trace ++ attempts s w.net w.netCalls s.in_.buf ++ [.closeTgDone] } := by
  unfold daemonExit
  simp only [htg]
  rw [daemonIter_iterate _ s _ hw htg]
  apply World.ext <;> simp [World.delivered, World.setConfig, World.emit, hw]

theorem Stop_eq (s : Sender) (w : World) (hw : w.halted = false)
    (htg : w.logConfig.tg = some s) (hopen : s.in_.closed = false) (hdone : s.done = false) :
    Sender.Stop w =
      { w with
        logConfig := { w.logConfig with tg := some { s with
          in_ := { s.in_ with buf := [], closed := true }, done := true } }
        netCalls := w.netCalls + s.in_.buf.length
        trace := w.trace ++ [.closeIn] ++ attempts s w.net w.netCalls s.in_.buf
          ++ [.closeTgDone] } := by
  have h : Sender.Stop w = daemonExit
      { w with
        logConfig := { w.logConfig with tg := some { s with in_ := { s.in_ with closed := true } } }
        trace := w.trace ++ [.closeIn] } := by
    unfold Sender.Stop
    simp [htg, hopen, hdone, World.setConfig, World.emit, hw]
  rw [h, daemonExit_eq { s with in_ := { s.in_ with closed := true } } _ (by simpa using hw) rfl]
  apply World.ext <;> simp [attempts_in]

/-! ## Views of the daemon's work -/

theorem sendRequest_in (s : Sender) (c : Chan String) :
    sendRequest { s with in_ := c } = sendRequest s := rfl

theorem postsOf_append (a b : List Event) : postsOf (a ++ b) = postsOf a ++ postsOf b := by
  simp [postsOf]

theorem alertsOf_append (a b : List Event) : alertsOf (a ++ b) = alertsOf a ++ alertsOf b := by
  simp [alertsOf]

theorem metricsOf_append (a b : List Event) : metricsOf (a ++ b) = metricsOf a ++ metricsOf b := by
  simp [metricsOf]

theorem printsOf_append (a b : List Event) : printsOf (a ++ b) = printsOf a ++ printsOf b := by
  simp [printsOf]

theorem outputs_append (a b : List Event) : outputs (a ++ b) = outputs a ++ outputs b := by
  simp [outputs]

theorem postsOf_attempts (s : Sender) (net : Nat → NetReply) (n : Nat) (ts : List String) :
    postsOf (attempts s net n ts) = ts.map (sendRequest s) := by
  induction ts generalizing n with
  | nil => rfl
  | cons t ts ih =>
    have := ih (n + 1)
    simp only [postsOf] at this
    cases h : sendError (net n) <;>
      simp [attempts, attempt, postsOf, h, this, Event.post?]

theorem alertsOf_attempts (s : Sender) (net : Nat → NetReply) (n : Nat) (ts : List String) :
    alertsOf (attempts s net n ts) = [] := by
  induction ts generalizing n with
  | nil => rfl
  | cons t ts ih =>
    have := ih (n + 1)
    simp only [alertsOf] at this
    cases h : sendError (net n) <;>
      simp [attempts, attempt, alertsOf, h, this, Event.alert?]

theorem metricsOf_attempts (s : Sender) (net : Nat → NetReply) (n : Nat) (ts : List String) :
    metricsOf (attempts s net n ts) = [] := by
  induction ts generalizing n with
  | nil => rfl
  | cons t ts ih =>
    have := ih (n + 1)
    simp only [metricsOf] at this
    cases h : sendError (net n) <;>
      simp [attempts, attempt, metricsOf, h, this, Event.metric?]

theorem outputs_attempts (s : Sender) (net : Nat → NetReply) (n : Nat) (ts : List String) :
    outputs (attempts s net n ts) = [] := by
  induction ts generalizing n with
  | nil => rfl
  | cons t ts ih =>
    have := ih (n + 1)
    simp only [outputs] at this
    cases h : sendError (net n) <;>
      simp [attempts, attempt, outputs, h, this, Event.isOutput]

theorem attempts_all (s : Sender) (net : Nat → NetReply) (n : Nat) (ts : List String) :
    (attempts s net n ts).all Event.isDelivery = true := by
  induction ts generalizing n with
  | nil => rfl
  | cons t ts ih =>
    have := ih (n + 1)
    cases h : sendError (net n) <;>
      simp [attempts, attempt, h, Event.isDelivery] <;> simpa using this

theorem delivery_views (d : List Event) (h : d.all Event.isDelivery = true) :
    outputs d = [] ∧ alertsOf d = [] ∧ metricsOf d = [] ∧ printsOf d = [] := by
  induction d with
  | nil => exact ⟨rfl, rfl, rfl, rfl⟩
  | cons e es ih =>
    simp only [List.all_cons, Bool.and_eq_true] at h
    obtain ⟨i1, i2, i3, i4⟩ := ih h.2
    simp only [outputs, alertsOf, metricsOf, printsOf] at i1 i2 i3 i4 ⊢
    cases e <;> simp [Event.isDelivery] at h <;>
      simp [Event.isOutput, Event.alert?, Event.metric?, Event.print?, i1, i2, i3, i4]

theorem outputs_views (tr : List Event) :
    alertsOf (outputs tr) = alertsOf tr ∧ metricsOf (outputs tr) = metricsOf tr
      ∧ printsOf (outputs tr) = printsOf tr := by
  induction tr with
  | nil => exact ⟨rfl, rfl, rfl⟩
  | cons e es ih =>
    obtain ⟨i1, i2, i3⟩ := ih
    simp only [outputs, alertsOf, metricsOf, printsOf] at i1 i2 i3 ⊢
    cases e <;>
      simp [Event.isOutput, Event.alert?, Event.metric?, Event.print?, i1, i2, i3]

theorem sendError_none (r : NetReply) : sendError r = none ↔ r = .status 200 := by
  cases r with
  | error msg => simp [sendError]
  | status code =>
    by_cases h : code = 200 <;> simp [sendError, h]

/-- Texts put on the alert queue one after the other: the queue stays open,
and the requests made so far followed by the requests for the texts still
queued are the requests for all the texts, in order. -/
theorem ToQueue_fold (texts : List String) :
    ∀ (s : Sender) (w : World), w.halted = false → w.logConfig.tg = some s →
      s.in_.closed = false →
      ∃ c : Chan String,
        (texts.foldl (fun u t => Sender.ToQueue t u) w).halted = false
        ∧ (texts.foldl (fun u t => Sender.ToQueue t u) w).logConfig.tg = some { s with in_ := c }
        ∧ c.closed = false
        ∧ postsOf (texts.foldl (fun u t => Sender.ToQueue t u) w).trace
            ++ c.buf.map (sendRequest s)
          = postsOf w.trace ++ (s.in_.buf ++ texts).map (sendRequest s) := by
  induction texts with
  | nil =>
    intro s w hw htg hopen
    exact ⟨s.in_, hw, htg, hopen, by simp⟩
  | cons t ts ih =>
    intro s w hw htg hopen
    have hu := ToQueue_eq t s w hw htg hopen
    have hu1 : (Sender.ToQueue t w).halted = false := by rw [hu]; simpa using hw
    have hu2 : (Sender.ToQueue t w).logConfig.tg = some { s with in_ := { s.in_ with
        buf := s.in_.buf.drop (max (w.sched w.yields) (s.in_.buf.length - s.in_.cap)) ++ [t] } } := by
      rw [hu]
    have hu3 : (Sender.ToQueue t w).trace = w.trace
        ++ attempts s w.net w.netCalls
            (s.in_.buf.take (max (w.sched w.yields) (s.in_.buf.length - s.in_.cap)))
        ++ [.sendIn t] := by
      rw [hu]
    obtain ⟨c, h1, h2, h3, h4⟩ := ih _ (Sender.ToQueue t w) hu1 hu2 (by simpa using hopen)
    rw [List.foldl_cons]
    refine ⟨c, h1, ?_, h3, ?_⟩
    · rw [h2]
    · rw [sendRequest_in] at h4
      rw [h4, hu3]
      simp only [postsOf_append, postsOf_attempts, List.map_append, List.append_assoc]
      have e : postsOf [Event.sendIn t] = [] := rfl
      rw [e]
      simp only [List.append_nil, List.map_cons, List.map_nil, ← List.map_append,
        ← List.append_assoc, List.take_append_drop]
      simp

/-- C8. `Send` makes one HTTP call and returns nil exactly when the transport
answered without error and with status 200.  For all texts put on the alert
queue before `Stop` and all answers of the transport, `Stop` returns, the
daemon has called the transport once per text in the order of insertion
(whatever the outcomes), and the closing of `done` is the last event, after
the attempt for the last text. -/
theorem C8_best_effort_delivery (s : Sender) (w : World) (texts : List String)
    (hw : w.halted = false) (htg : w.logConfig.tg = some s)
    (hopen : s.in_.closed = false) (hdone : s.done = false) :
    (∀ text, (s.Send text w).1 = none ↔ w.net w.netCalls = .status 200)
    ∧ (∀ text, (s.Send text w).2.trace
        = w.trace ++ [.clientDoTimeout (sendRequest s text) (Second * 10)])
    ∧ (Sender.Stop (texts.foldl (fun u t => Sender.ToQueue t u) w)).halted = false
    ∧ (∃ pre, (Sender.Stop (texts.foldl (fun u t => Sender.ToQueue t u) w)).trace
          = pre ++ [.closeTgDone]
        ∧ postsOf pre = postsOf w.trace ++ (s.in_.buf ++ texts).map (sendRequest s))
    ∧ (Sender.Stop (texts.foldl (fun u t => Sender.ToQueue t u) w)).tgOpen = false := by
  obtain ⟨c, h1, h2, h3, h4⟩ := ToQueue_fold texts s w hw htg hopen
  have hstop := Stop_eq _ _ h1 h2 h3 hdone
  refine ⟨?_, ?_, ?_, ?_, ?_⟩
  · intro text
    rw [Send_eq s text w hw]
    exact sendError_none _
  · intro text
    rw [Send_eq s text w hw]
  · rw [hstop]; exact h1
  · refine ⟨_, by rw [hstop], ?_⟩
    simp only [postsOf_append, postsOf_attempts, sendRequest_in]
    have e : postsOf [Event.closeIn] = [] := rfl
    rw [e, List.append_nil, h4]
  · rw [hstop]
    simp [World.tgOpen]

theorem C8_best_effort_delivery_witness :
    (Sender.Stop (["a", "b"].foldl (fun u t => Sender.ToQueue t u) sampleTg)).halted = false :=
  (C8_best_effort_delivery (NewSender "svc" "T" "1" "2" 1) sampleTg ["a", "b"]
    (by decide) (by decide) (by decide) (by decide)).2.2.1

/-! ## Processing one record -/

theorem frame_refl (w : World) (hw : w.halted = false) : Frame w w :=
  ⟨hw, rfl, rfl, rfl, rfl, rfl⟩

theorem frame_trans {a b c : World} (h1 : Frame a b) (h2 : Frame b c) : Frame a c := by
  obtain ⟨_, a2, a3, a4, a5, a6⟩ := h1
  obtain ⟨b1, b2, b3, b4, b5, b6⟩ := h2
  exact ⟨b1, b2.trans a2, b3.trans a3, b4.trans a4, b5.trans a5, b6.trans a6⟩

theorem emit_eq (e : Event) (w : World) (hw : w.halted = false) :
    w.emit e = { w with trace := w.trace ++ [e] } := by
  simp [World.emit, hw]

theorem setConfig_eq (f : LogConfig → LogConfig) (w : World) (hw : w.halted = false) :
    w.setConfig f = { w with logConfig := f w.logConfig } := by
  simp [World.setConfig, hw]

theorem setConfig_emit_eq (f : LogConfig → LogConfig) (e : Event) (w : World)
    (hw : w.halted = false) :
    (w.setConfig f).emit e = { w with logConfig := f w.logConfig, trace := w.trace ++ [e] } := by
  simp [World.setConfig, World.emit, hw]

theorem emit_frame (e : Event) (w : World) (hw : w.halted = false) : Frame w (w.emit e) := by
  rw [emit_eq e w hw]
  exact ⟨hw, rfl, rfl, rfl, rfl, rfl⟩

theorem emit_trace (e : Event) (w : World) (hw : w.halted = false) :
    (w.emit e).trace = w.trace ++ [e] := by
  rw [emit_eq e w hw]

theorem tgOpen_some (w : World) (h : w.tgOpen = true) :
    ∃ s, w.logConfig.tg = some s ∧ s.in_.closed = false ∧ s.done = false := by
  unfold World.tgOpen at h
  cases htg : w.logConfig.tg with
  | none => simp [htg] at h
  | some s =>
    simp [htg] at h
    exact ⟨s, rfl, h.1, h.2⟩

theorem ToQueue_frame (text : String) (w : World) (hw : w.halted = false)
    (ho : w.tgOpen = true) :
    Frame w (Sender.ToQueue text w)
    ∧ ∃ d, (Sender.ToQueue text w).trace = w.trace ++ d ++ [.sendIn text]
        ∧ outputs d = [] ∧ alertsOf d = [] ∧ metricsOf d = [] := by
  obtain ⟨s, htg, hc, hd⟩ := tgOpen_some w ho
  rw [ToQueue_eq text s w hw htg hc]
  refine ⟨⟨hw, ?_, rfl, rfl, rfl, rfl⟩, _, rfl, outputs_attempts _ _ _ _,
    alertsOf_attempts _ _ _ _, metricsOf_attempts _ _ _ _⟩
  simp [World.tgOpen, htg, hc, hd]

theorem ready_iff (w : World) :
    w.ready = true ↔ w.halted = false
      ∧ (w.logConfig.errMetricsEnabled = true → w.logConfig.errMetrics = true)
      ∧ (w.logConfig.tgEnabled = true → w.tgOpen = true) := by
  unfold World.ready
  cases w.halted <;> cases w.logConfig.errMetricsEnabled <;> cases w.logConfig.errMetrics <;>
    cases w.logConfig.tgEnabled <;> cases w.tgOpen <;> simp

theorem toggles_eq {c d : LogConfig} (h : d.toggles = c.toggles) :
    d.tgEnabled = c.tgEnabled ∧ d.tgLogEnabled = c.tgLogEnabled
      ∧ d.tgWarnEnabled = c.tgWarnEnabled ∧ d.tgCritEnabled = c.tgCritEnabled
      ∧ d.tgPanicEnabled = c.tgPanicEnabled ∧ d.tgFatalEnabled = c.tgFatalEnabled
      ∧ d.errMetrics = c.errMetrics ∧ d.errMetricsEnabled = c.errMetricsEnabled := by
  simpa [LogConfig.toggles] using h

theorem frame_ready {w u : World} (h : Frame w u) (hw : w.ready = true) : u.ready = true := by
  obtain ⟨h1, h2, h3, _, _, _⟩ := h
  obtain ⟨t1, _, _, _, _, _, t7, t8⟩ := toggles_eq h3
  rw [ready_iff] at hw ⊢
  rw [t1, t7, t8, h2]
  exact ⟨h1, hw.2.1, hw.2.2⟩

theorem recordEffects_congr {c d : LogConfig} (h : d.toggles = c.toggles) (col : Colors)
    (lm : LogMessage) : recordEffects d col lm = recordEffects c col lm := by
  obtain ⟨t1, _, t3, t4, _, _, _, t8⟩ := toggles_eq h
  simp [recordEffects, t1, t3, t4, t8]

theorem ErrGaugeInc_eq (level : String) (w : World) (hw : w.halted = false)
    (hm : w.logConfig.errMetrics = true) :
    ErrGaugeInc level w = { w with trace := w.trace ++ [.errGaugeInc level] } := by
  simp [ErrGaugeInc, hm, emit_eq _ _ hw]

/-- The routing step of `processLogMessage`. -/
theorem route_spec (lm : LogMessage) (msg : String) (w : World) (hh : w.halted = false)
    (ht : w.logConfig.tgEnabled = true → w.tgOpen = true) :
    Frame w
      (if w.logConfig.tgEnabled = true then
        if lm.Level = LogLevelWarn ∧ w.logConfig.tgWarnEnabled = true then
          Sender.ToQueue (Sprintf "[WARN] %s" [.str msg]) w
        else if lm.Level = LogLevelCrit ∧ w.logConfig.tgCritEnabled = true then
          Sender.ToQueue (Sprintf "[CRIT] %s" [.str msg]) w
        else w
      else w)
    ∧ outputs
        (if w.logConfig.tgEnabled = true then
          if lm.Level = LogLevelWarn ∧ w.logConfig.tgWarnEnabled = true then
            Sender.ToQueue (Sprintf "[WARN] %s" [.str msg]) w
          else if lm.Level = LogLevelCrit ∧ w.logConfig.tgCritEnabled = true then
            Sender.ToQueue (Sprintf "[CRIT] %s" [.str msg]) w
          else w
        else w).trace
      = outputs w.trace ++
        (if w.logConfig.tgEnabled = true then
          if lm.Level = LogLevelWarn ∧ w.logConfig.tgWarnEnabled = true then
            [.sendIn ("[WARN] " ++ msg)]
          else if lm.Level = LogLevelCrit ∧ w.logConfig.tgCritEnabled = true then
            [.sendIn ("[CRIT] " ++ msg)]
          else []
        else []) := by
  have tagW : Sprintf "[WARN] %s" [.str msg] = "[WARN] " ++ msg :=
    Sprintf_tag "[WARN] " msg (by decide)
  have tagC : Sprintf "[CRIT] %s" [.str msg] = "[CRIT] " ++ msg :=
    Sprintf_tag "[CRIT] " msg (by decide)
  have sent : ∀ text, w.tgOpen = true →
      Frame w (Sender.ToQueue text w)
      ∧ outputs (Sender.ToQueue text w).trace = outputs w.trace ++ [.sendIn text] := by
    intro text ho
    obtain ⟨f, d, hd, hd0, _, _⟩ := ToQueue_frame text w hh ho
    refine ⟨f, ?_⟩
    rw [hd, outputs_append, outputs_append, hd0]
    simp [outputs, Event.isOutput]
  by_cases hT : w.logConfig.tgEnabled = true
  · by_cases hW : lm.Level = LogLevelWarn ∧ w.logConfig.tgWarnEnabled = true
    · rw [if_pos hT, if_pos hW, if_pos hT, if_pos hW, tagW]
      exact sent _ (ht hT)
    · by_cases hC : lm.Level = LogLevelCrit ∧ w.logConfig.tgCritEnabled = true
      · rw [if_pos hT, if_neg hW, if_pos hC, if_pos hT, if_neg hW, if_pos hC, tagC]
        exact sent _ (ht hT)
      · rw [if_pos hT, if_neg hW, if_neg hC, if_pos hT, if_neg hW, if_neg hC]
        exact ⟨frame_refl w hh, by simp⟩
  · rw [if_neg hT, if_neg hT]
    exact ⟨frame_refl w hh, by simp⟩

/-- The metrics step of `processLogMessage` and of `handlePanicFatal`. -/
theorem metric_spec (level : String) (w : World) (hh : w.halted = false)
    (hm : w.logConfig.errMetricsEnabled = true → w.logConfig.errMetrics = true) :
    Frame w (if w.logConfig.errMetricsEnabled = true then ErrGaugeInc level w else w)
    ∧ (if w.logConfig.errMetricsEnabled = true then ErrGaugeInc level w else w).trace
      = w.trace ++ (if w.logConfig.errMetricsEnabled = true then [.errGaugeInc level] else [])
    ∧ (if w.logConfig.errMetricsEnabled = true then ErrGaugeInc level w else w).logConfig
      = w.logConfig := by
  by_cases hE : w.logConfig.errMetricsEnabled = true
  · rw [if_pos hE, if_pos hE, ErrGaugeInc_eq level w hh (hm hE)]
    exact ⟨⟨hh, rfl, rfl, rfl, rfl, rfl⟩, rfl, rfl⟩
  · rw [if_neg hE, if_neg hE]
    exact ⟨frame_refl w hh, by simp, rfl⟩

/-- One record processed in a ready process: the process stays ready, the
configuration is unchanged, and the effects are those of `recordEffects`. -/
theorem processLogMessage_spec (lm : LogMessage) (w : World) (hw : w.ready = true) :
    Frame w (processLogMessage lm w)
    ∧ outputs (processLogMessage lm w).trace
        = outputs w.trace ++ recordEffects w.logConfig w.colors lm := by
  obtain ⟨hh, hm, ht⟩ := (ready_iff w).mp hw
  have f1 := emit_frame (.logPrint (lm.coloredMessage w.colors lm.formattedMessage)) w hh
  have t1 := emit_trace (.logPrint (lm.coloredMessage w.colors lm.formattedMessage)) w hh
  by_cases hl : lm.Level = LogLevelLog
  · have e : processLogMessage lm w
        = w.emit (.logPrint (lm.coloredMessage w.colors lm.formattedMessage)) := by
      simp [processLogMessage, hl]
    rw [e]
    refine ⟨f1, ?_⟩
    rw [t1, outputs_append]
    simp [recordEffects, hl, outputs, Event.isOutput]
  · have r1 := frame_ready f1 hw
    obtain ⟨hh1, hm1, -⟩ := (ready_iff _).mp r1
    obtain ⟨f2, t2, -⟩ := metric_spec lm.Level _ hh1 hm1
    have r2 := frame_ready f2 r1
    obtain ⟨hh2, -, ht2⟩ := (ready_iff _).mp r2
    obtain ⟨f3, t3⟩ := route_spec lm lm.formattedMessage _ hh2 ht2
    obtain ⟨-, -, g3, -, -, -⟩ := frame_trans f1 f2
    obtain ⟨k1, -, k3, k4, -, -, -, k8⟩ := toggles_eq g3
    obtain ⟨-, -, -, -, -, -, -, j8⟩ := toggles_eq f1.2.2.1
    unfold processLogMessage
    simp only [ne_eq, hl, not_false_eq_true, if_true]
    refine ⟨frame_trans f1 (frame_trans f2 f3), ?_⟩
    rw [t3, t2, t1, k1, k3, k4, j8]
    simp only [outputs_append, recordEffects, ne_eq, hl, not_false_eq_true, if_true]
    by_cases hE : w.logConfig.errMetricsEnabled = true <;>
      simp [hE, outputs, Event.isOutput]

/-! ## Routing -/

/-- C3. For a `WARN` or `CRIT` record handled by `processLogMessage` in a
ready process, the alert queue accepts one more text, the tag of the level
followed by the rendered message, when alerting and the toggle of that level
are on, and no text otherwise.  With `CRIT` alerting off and `WARN` alerting
on, one `CRIT` record followed by one `WARN` record puts exactly one text on
the queue, the one of the `WARN` record. -/
theorem C3_routing_toggles (lm : LogMessage) (w : World) (hw : w.ready = true)
    (hl : lm.Level = LogLevelWarn ∨ lm.Level = LogLevelCrit) :
    alertsOf (processLogMessage lm w).trace
      = alertsOf w.trace ++
        (if w.logConfig.tgEnabled = true
            ∧ ((lm.Level = LogLevelWarn ∧ w.logConfig.tgWarnEnabled = true)
              ∨ (lm.Level = LogLevelCrit ∧ w.logConfig.tgCritEnabled = true))
          then ["[" ++ lm.Level ++ "] " ++ lm.formattedMessage] else [])
    ∧ (∀ crit warn : LogMessage, crit.Level = LogLevelCrit → warn.Level = LogLevelWarn →
        w.logConfig.tgEnabled = true → w.logConfig.tgCritEnabled = false →
        w.logConfig.tgWarnEnabled = true →
        alertsOf (processLogMessage warn (processLogMessage crit w)).trace
          = alertsOf w.trace ++ ["[WARN] " ++ warn.formattedMessage]) := by
  have key : ∀ (m : LogMessage) (u : World), u.ready = true →
      alertsOf (processLogMessage m u).trace
        = alertsOf u.trace ++ alertsOf (recordEffects u.logConfig u.colors m) := by
    intro m u hu
    have := (processLogMessage_spec m u hu).2
    rw [← (outputs_views _).1, this, alertsOf_append, (outputs_views _).1]
  have hne : LogLevelWarn ≠ LogLevelLog ∧ LogLevelCrit ≠ LogLevelLog
      ∧ LogLevelWarn ≠ LogLevelCrit := by decide
  constructor
  · rw [key lm w hw]
    congr 1
    rcases hl with h | h
    · by_cases hT : w.logConfig.tgEnabled = true <;>
        by_cases hW : w.logConfig.tgWarnEnabled = true <;>
        by_cases hE : w.logConfig.errMetricsEnabled = true <;>
        simp [recordEffects, alertsOf, Event.alert?, h, hne.1, hne.2.2, hT, hW, hE] <;> rfl
    · by_cases hT : w.logConfig.tgEnabled = true <;>
        by_cases hC : w.logConfig.tgCritEnabled = true <;>
        by_cases hE : w.logConfig.errMetricsEnabled = true <;>
        simp [recordEffects, alertsOf, Event.alert?, h, hne.2.1, hne.2.2.symm, hT, hC, hE] <;> rfl
  · intro crit warn hc hwn hT hC hW
    obtain ⟨f, -⟩ := processLogMessage_spec crit w hw
    obtain ⟨t1, -, t3, t4, -, -, -, t8⟩ := toggles_eq f.2.2.1
    rw [key warn _ (frame_ready f hw), key crit w hw, List.append_assoc]
    congr 1
    by_cases hE : w.logConfig.errMetricsEnabled = true <;>
      simp [recordEffects, alertsOf, Event.alert?, hc, hwn, hne.1, hne.2.1, hne.2.2,
        hne.2.2.symm, hT, hC, hW, hE, t1, t3, t4, t8]

theorem C3_routing_toggles_witness :
    alertsOf (processLogMessage ⟨LogLevelWarn, "app/main.go:3", false, "", [.str "disk"]⟩
        (processLogMessage ⟨LogLevelCrit, "app/main.go:2", false, "", [.str "full"]⟩
          sampleWarnOnly)).trace
      = alertsOf sampleWarnOnly.trace
        ++ ["[WARN] " ++ (LogMessage.mk LogLevelWarn "app/main.go:3" false "" [.str "disk"]).formattedMessage] :=
  (C3_routing_toggles ⟨LogLevelWarn, "app/main.go:3", false, "", [.str "disk"]⟩ sampleWarnOnly
    (by decide) (Or.inl rfl)).2
    ⟨LogLevelCrit, "app/main.go:2", false, "", [.str "full"]⟩
    ⟨LogLevelWarn, "app/main.go:3", false, "", [.str "disk"]⟩ rfl rfl (by decide) (by decide)
    (by decide)

/-- C4. A `LOG` record is never forwarded: whatever the toggles, also after
`EnableLogToTelegram`, `processLogMessage` only writes the rendered message.
In the sample process with alerting on and `EnableLogToTelegram` called,
`Log("started")` from line 3 of `/srv/app/main.go` puts no text on the alert
queue. -/
theorem C4_log_level_never_forwarded (caller format : String) (isPrintf : Bool)
    (params : List Val) (w : World) :
    processLogMessage ⟨LogLevelLog, caller, isPrintf, format, params⟩ (EnableLogToTelegram w)
      = (EnableLogToTelegram w).emit
          (.logPrint (LogMessage.mk LogLevelLog caller isPrintf format params).formattedMessage)
    ∧ (EnableLogToTelegram sampleTg).logConfig.tgEnabled = true
    ∧ (EnableLogToTelegram sampleTg).logConfig.tgLogEnabled = true
    ∧ (Log (some ("/srv/app/main.go", 3)) [.str "started"] (EnableLogToTelegram sampleTg)).trace
        = [.logPrint "app/main.go:3 started\n"]
    ∧ alertsOf
        (Log (some ("/srv/app/main.go", 3)) [.str "started"] (EnableLogToTelegram sampleTg)).trace
        = [] := by
  refine ⟨?_, by decide, by decide, by decide, by decide⟩
  simp [processLogMessage, LogMessage.coloredMessage]

/-- C2. `Send` with the text `"a&b=c d%\n"`: one POST to the `sendMessage` URL
with the form content type and a timeout of 10 seconds, whose body carries
the text as it is, not URL-encoded as the wire contract asks. -/
theorem C2_text_is_sent_raw :
    ((NewSender "svc" "T" "1" "2" 1).Send "a&b=c d%\n" sampleWorld).2.trace
      = [.clientDoTimeout
          { method := "POST"
            uri := "https://api.telegram.org/botT/sendMessage"
            body := "chat_id=1&message_thread_id=2&text=a&b=c d%\n"
            headers := [("Content-Type", "application/x-www-form-urlencoded")] }
          (10 * Second)]
    ∧ wireBody "1" "2" "a&b=c d%\n" = "chat_id=1&message_thread_id=2&text=a%26b%3Dc+d%25%0A"
    ∧ (sendRequest (NewSender "svc" "T" "1" "2" 1) "a&b=c d%\n").body
        ≠ wireBody "1" "2" "a&b=c d%\n" := by
  decide

/-! ## The logging queue -/

theorem frame_kept {w u : World} (h : Frame w u) : Kept w u :=
  ⟨h.1, h.2.1, h.2.2.1, h.2.2.2.2.1, h.2.2.2.2.2⟩

theorem kept_refl (w : World) (hw : w.halted = false) : Kept w w :=
  ⟨hw, rfl, rfl, rfl, rfl⟩

theorem kept_trans {a b c : World} (h1 : Kept a b) (h2 : Kept b c) : Kept a c := by
  obtain ⟨_, a2, a3, a4, a5⟩ := h1
  obtain ⟨b1, b2, b3, b4, b5⟩ := h2
  exact ⟨b1, b2.trans a2, b3.trans a3, b4.trans a4, b5.trans a5⟩

theorem kept_ready {w u : World} (h : Kept w u) (hw : w.ready = true) : u.ready = true := by
  obtain ⟨h1, h2, h3, _, _⟩ := h
  obtain ⟨t1, _, _, _, _, _, t7, t8⟩ := toggles_eq h3
  rw [ready_iff] at hw ⊢
  rw [t1, t7, t8, h2]
  exact ⟨h1, hw.2.1, hw.2.2⟩

theorem kept_effects {w u : World} (h : Kept w u) (lm : LogMessage) :
    recordEffects u.logConfig u.colors lm = recordEffects w.logConfig w.colors lm := by
  rw [recordEffects_congr h.2.2.1, h.2.2.2.2]

/-- One iteration of the log processor on a queue that is not empty. -/
theorem logProcessorIter_cons (u : World) (ch : Chan LogMessage) (m : LogMessage)
    (rest : List LogMessage) (hu : u.ready = true) (hch : u.logConfig.logChan = some ch)
    (hb : ch.buf = m :: rest) :
    Kept u (logProcessorIter u)
    ∧ (logProcessorIter u).logConfig.logChan = some { ch with buf := rest }
    ∧ outputs (logProcessorIter u).trace
        = outputs u.trace ++ recordEffects u.logConfig u.colors m := by
  obtain ⟨hh, hm, ht⟩ := (ready_iff u).mp hu
  have e : logProcessorIter u = processLogMessage m
      { u with logConfig := { u.logConfig with logChan := some { ch with buf := rest } } } := by
    simp [logProcessorIter, hh, hch, hb, World.setConfig]
  have k1 : Kept u
      { u with logConfig := { u.logConfig with logChan := some { ch with buf := rest } } } :=
    ⟨hh, rfl, rfl, rfl, rfl⟩
  obtain ⟨f, o⟩ := processLogMessage_spec m _ (kept_ready k1 hu)
  rw [e]
  exact ⟨kept_trans k1 (frame_kept f), f.2.2.2.1, o⟩

/-- The iterations of the log processor: `k` iterations process the `k`
oldest records of the queue, in order. -/
theorem logProcessorIter_iterate (k : Nat) :
    ∀ (u : World) (ch : Chan LogMessage), u.ready = true → u.logConfig.logChan = some ch →
      Kept u (logProcessorIter^[k] u)
      ∧ (logProcessorIter^[k] u).logConfig.logChan = some { ch with buf := ch.buf.drop k }
      ∧ outputs (logProcessorIter^[k] u).trace
          = outputs u.trace ++ (ch.buf.take k).flatMap (recordEffects u.logConfig u.colors) := by
  induction k with
  | zero =>
    intro u ch hu hch
    exact ⟨kept_refl u ((ready_iff u).mp hu).1, by simpa using hch, by simp⟩
  | succ k ih =>
    intro u ch hu hch
    rw [Function.iterate_succ_apply]
    cases hb : ch.buf with
    | nil =>
      have e : logProcessorIter u = u := by
        simp [logProcessorIter, hch, hb]
      rw [e]
      obtain ⟨i1, i2, i3⟩ := ih u ch hu hch
      refine ⟨i1, ?_, ?_⟩
      · rw [i2, hb]; simp
      · rw [i3, hb]; simp
    | cons m rest =>
      obtain ⟨c1, c2, c3⟩ := logProcessorIter_cons u ch m rest hu hch hb
      obtain ⟨i1, i2, i3⟩ := ih (logProcessorIter u) { ch with buf := rest }
        (kept_ready c1 hu) c2
      refine ⟨kept_trans c1 i1, ?_, ?_⟩
      · rw [i2]; simp
      · rw [i3, c3]
        have : (fun lm => recordEffects (logProcessorIter u).logConfig (logProcessorIter u).colors lm)
            = fun lm => recordEffects u.logConfig u.colors lm := by
          funext lm
          exact kept_effects c1 lm
        simp only [List.take_succ_cons, List.flatMap_cons, List.append_assoc]
        rw [show recordEffects (logProcessorIter u).logConfig (logProcessorIter u).colors
          = recordEffects u.logConfig u.colors from this]

/-- A record sent on the open logging queue: the effects so far, followed by
the effects of the records still queued, grow by the effects of the record. -/
theorem logMessage_started (lm : LogMessage) (u : World) (ch : Chan LogMessage)
    (hu : u.ready = true) (hch : u.logConfig.logChan = some ch) (hc : ch.closed = false) :
    ∃ ch' : Chan LogMessage,
      Kept u (logMessage lm u)
      ∧ (logMessage lm u).logConfig.logChan = some ch' ∧ ch'.closed = false
      ∧ outputs (logMessage lm u).trace
            ++ ch'.buf.flatMap (recordEffects u.logConfig u.colors)
          = outputs u.trace ++ ch.buf.flatMap (recordEffects u.logConfig u.colors)
            ++ recordEffects u.logConfig u.colors lm := by
  obtain ⟨hh, hm, ht⟩ := (ready_iff u).mp hu
  have y1 : u.yield.1 = u.sched u.yields := rfl
  have yeq : u.yield.2 = { u with yields := u.yields + 1 } := by
    simp [World.yield, hh]
  have k0 : Kept u u.yield.2 := by
    rw [yeq]
    exact ⟨hh, rfl, rfl, rfl, rfl⟩
  have hy : u.yield.2.logConfig.logChan = some ch := by
    rw [yeq]
    exact hch
  have ey : recordEffects u.yield.2.logConfig u.yield.2.colors
      = recordEffects u.logConfig u.colors := by
    funext m
    exact kept_effects k0 m
  have ty : u.yield.2.trace = u.trace := by
    rw [yeq]
  obtain ⟨i1, i2, i3⟩ := logProcessorIter_iterate
    (max u.yield.1 (ch.buf.length - ch.cap)) u.yield.2 ch (kept_ready k0 hu) hy
  rw [ey, ty] at i3
  have k1 := kept_trans k0 i1
  have e : logMessage lm u =
      ((logProcessorIter^[max u.yield.1 (ch.buf.length - ch.cap)] u.yield.2).setConfig fun c =>
        { c with logChan := c.logChan.map fun ch => { ch with buf := ch.buf ++ [lm] } }).emit
        (.sendLogChan lm) := by
    unfold logMessage
    simp only [hch, hc]
    rfl
  rw [e]
  generalize logProcessorIter^[max u.yield.1 (ch.buf.length - ch.cap)] u.yield.2 = Z
    at i1 i2 i3 k1 ⊢
  have hz : Z.halted = false := k1.1
  rw [setConfig_emit_eq _ _ Z hz]
  refine ⟨{ ch with buf := ch.buf.drop (max u.yield.1 (ch.buf.length - ch.cap)) ++ [lm] },
    ⟨hz, k1.2.1, k1.2.2.1, k1.2.2.2.1, k1.2.2.2.2⟩, by simp [i2], hc, ?_⟩
  simp only [outputs_append, i3]
  have o : outputs [Event.sendLogChan lm] = [] := rfl
  rw [o, List.append_nil]
  simp only [List.flatMap_append, List.append_assoc, List.flatMap_cons, List.flatMap_nil,
    List.append_nil]
  rw [← List.append_assoc _ _ (recordEffects u.logConfig u.colors lm), ← List.flatMap_append,
    List.take_append_drop]

/-- Records sent one after the other on the open logging queue. -/
theorem logMessage_fold (rs : List LogMessage) :
    ∀ (u : World) (ch : Chan LogMessage), u.ready = true → u.logConfig.logChan = some ch →
      ch.closed = false →
      ∃ ch' : Chan LogMessage,
        Kept u (rs.foldl (fun v r => logMessage r v) u)
        ∧ (rs.foldl (fun v r => logMessage r v) u).logConfig.logChan = some ch'
        ∧ ch'.closed = false
        ∧ outputs (rs.foldl (fun v r => logMessage r v) u).trace
              ++ ch'.buf.flatMap (recordEffects u.logConfig u.colors)
            = outputs u.trace ++ ch.buf.flatMap (recordEffects u.logConfig u.colors)
              ++ rs.flatMap (recordEffects u.logConfig u.colors) := by
  induction rs with
  | nil =>
    intro u ch hu hch hc
    exact ⟨ch, kept_refl u ((ready_iff u).mp hu).1, hch, hc, by simp⟩
  | cons r rs ih =>
    intro u ch hu hch hc
    obtain ⟨c1, k1, l1, n1, o1⟩ := logMessage_started r u ch hu hch hc
    obtain ⟨c2, k2, l2, n2, o2⟩ := ih (logMessage r u) c1 (kept_ready k1 hu) l1 n1
    have eq : recordEffects (logMessage r u).logConfig (logMessage r u).colors
        = recordEffects u.logConfig u.colors := by
      funext lm
      exact kept_effects k1 lm
    rw [eq] at o2
    rw [List.foldl_cons]
    refine ⟨c2, kept_trans k1 k2, l2, n2, ?_⟩
    rw [o2, o1]
    simp [List.append_assoc]

/-- Records processed one after the other by the caller. -/
theorem processLogMessage_fold (rs : List LogMessage) :
    ∀ (u : World), u.ready = true →
      Frame u (rs.foldl (fun v r => processLogMessage r v) u)
      ∧ outputs (rs.foldl (fun v r => processLogMessage r v) u).trace
          = outputs u.trace ++ rs.flatMap (recordEffects u.logConfig u.colors) := by
  induction rs with
  | nil =>
    intro u hu
    exact ⟨frame_refl u ((ready_iff u).mp hu).1, by simp⟩
  | cons r rs ih =>
    intro u hu
    obtain ⟨f1, o1⟩ := processLogMessage_spec r u hu
    obtain ⟨f2, o2⟩ := ih (processLogMessage r u) (frame_ready f1 hu)
    have eq : recordEffects (processLogMessage r u).logConfig (processLogMessage r u).colors
        = recordEffects u.logConfig u.colors := by
      funext lm
      exact kept_effects (frame_kept f1) lm
    rw [eq] at o2
    rw [List.foldl_cons]
    refine ⟨frame_trans f1 f2, ?_⟩
    rw [o2, o1]
    simp [List.append_assoc]

/-- The fallback of `logMessage`: while the log processor was never started,
records are processed by the caller. -/
theorem logMessage_fallback (rs : List LogMessage) :
    ∀ (u : World), u.ready = true → u.logConfig.logChan = none →
      rs.foldl (fun v r => logMessage r v) u = rs.foldl (fun v r => processLogMessage r v) u := by
  induction rs with
  | nil => intro u _ _; rfl
  | cons r rs ih =>
    intro u hu hn
    have e : logMessage r u = processLogMessage r u := by
      simp [logMessage, hn]
    obtain ⟨f1, -⟩ := processLogMessage_spec r u hu
    rw [List.foldl_cons, List.foldl_cons, e]
    exact ih _ (frame_ready f1 hu) (f1.2.2.2.1.trans hn)

/-- Function `StopLogProcessor` on a started, open logging queue: it returns after the
log processor has processed the queued records and closed `done`. -/
theorem StopLogProcessor_started (u : World) (ch : Chan LogMessage) (hu : u.ready = true)
    (hch : u.logConfig.logChan = some ch) (hc : ch.closed = false)
    (hd : u.logConfig.done = false) :
    (StopLogProcessor u).halted = false
    ∧ (StopLogProcessor u).logConfig.done = true
    ∧ (StopLogProcessor u).logConfig.logChan = some { ch with buf := [], closed := true }
    ∧ outputs (StopLogProcessor u).trace
        = outputs u.trace ++ ch.buf.flatMap (recordEffects u.logConfig u.colors)
    ∧ (StopLogProcessor u).trace.getLast? = some .closeLogDone := by
  obtain ⟨hh, hm, ht⟩ := (ready_iff u).mp hu
  have k0 : Kept u { u with
      logConfig := { u.logConfig with logChan := some { ch with closed := true } }
      trace := u.trace ++ [.closeLogChan] } := ⟨hh, rfl, rfl, rfl, rfl⟩
  obtain ⟨i1, i2, i3⟩ := logProcessorIter_iterate ch.buf.length _ { ch with closed := true }
    (kept_ready k0 hu) rfl
  have ek := funext (fun m => kept_effects k0 m)
  rw [ek] at i3
  have hi := i1.1
  have e : StopLogProcessor u
      = ((logProcessorIter^[ch.buf.length] { u with
            logConfig := { u.logConfig with logChan := some { ch with closed := true } }
            trace := u.trace ++ [.closeLogChan] }).setConfig
          fun c => { c with done := true }).emit .closeLogDone := by
    unfold StopLogProcessor
    simp [hch, closeLogChan, hc, World.setConfig, World.emit, hh, hd, logProcessorExit]
  rw [e]
  generalize logProcessorIter^[ch.buf.length] { u with
      logConfig := { u.logConfig with logChan := some { ch with closed := true } }
      trace := u.trace ++ [.closeLogChan] } = Z at i1 i2 i3 hi ⊢
  rw [setConfig_emit_eq _ _ Z hi]
  refine ⟨hi, rfl, ?_, ?_, by simp⟩
  · simp [i2]
  · simp only [outputs_append, i3]
    have o1 : outputs [Event.closeLogChan] = [] := rfl
    have o2 : outputs [Event.closeLogDone] = [] := rfl
    simp [o1, o2]

theorem printsOf_recordEffects (c : LogConfig) (col : Colors) (rs : List LogMessage) :
    printsOf (rs.flatMap (recordEffects c col))
      = rs.map fun r => r.coloredMessage col r.formattedMessage := by
  induction rs with
  | nil => rfl
  | cons r rs ih =>
    rw [List.flatMap_cons, printsOf_append, ih, List.map_cons]
    unfold recordEffects
    split_ifs <;> simp [printsOf, Event.print?]

theorem EnableLogProcessor_eq (queue : Int) (w : World) (hh : w.halted = false)
    (hnil : w.logConfig.logChan = none) (hq : 0 ≤ queue) :
    EnableLogProcessor queue w
      = { w with logConfig := { w.logConfig with
            logChan := some (Chan.make LogMessage queue.toNat), done := false } } := by
  simp [EnableLogProcessor, hnil, Int.not_lt.mpr hq, World.setConfig, hh]

/-- C9. Records submitted through `logMessage` to a started pipeline and then
`StopLogProcessor`: the call returns, `done` is closed as the last event, and
the writes, gauge increments and queued alerts are, in order, those of
`processLogMessage` applied to the records one after the other, each record
being written once.  Submitting the same records through `logMessage` while
the pipeline was never started is the same as applying `processLogMessage` to
them one after the other. -/
theorem C9_fifo_drain_fallback (rs : List LogMessage) (queue : Int) (w : World)
    (hw : w.ready = true) (hnil : w.logConfig.logChan = none) (hq : 0 ≤ queue) :
    (StopLogProcessor (rs.foldl (fun u r => logMessage r u) (EnableLogProcessor queue w))).halted
      = false
    ∧ (StopLogProcessor
        (rs.foldl (fun u r => logMessage r u) (EnableLogProcessor queue w))).logConfig.done = true
    ∧ (StopLogProcessor
        (rs.foldl (fun u r => logMessage r u) (EnableLogProcessor queue w))).trace.getLast?
      = some .closeLogDone
    ∧ outputs (StopLogProcessor
        (rs.foldl (fun u r => logMessage r u) (EnableLogProcessor queue w))).trace
      = outputs (rs.foldl (fun u r => processLogMessage r u) w).trace
    ∧ printsOf (StopLogProcessor
        (rs.foldl (fun u r => logMessage r u) (EnableLogProcessor queue w))).trace
      = printsOf w.trace ++ rs.map (fun r => r.coloredMessage w.colors r.formattedMessage)
    ∧ rs.foldl (fun u r => logMessage r u) w = rs.foldl (fun u r => processLogMessage r u) w := by
  obtain ⟨hh, hm, ht⟩ := (ready_iff w).mp hw
  have e0 := EnableLogProcessor_eq queue w hh hnil hq
  have r0 : (EnableLogProcessor queue w).ready = true := by
    rw [e0, ready_iff]
    exact ⟨hh, hm, ht⟩
  have c0 : (EnableLogProcessor queue w).logConfig.logChan
      = some (Chan.make LogMessage queue.toNat) := by rw [e0]
  have d0 : (EnableLogProcessor queue w).logConfig.done = false := by rw [e0]
  have t0 : (EnableLogProcessor queue w).trace = w.trace := by rw [e0]
  have f0 : recordEffects (EnableLogProcessor queue w).logConfig (EnableLogProcessor queue w).colors
      = recordEffects w.logConfig w.colors := by
    rw [e0]
    funext m
    exact recordEffects_congr rfl _ _
  obtain ⟨ch, k1, l1, n1, o1⟩ := logMessage_fold rs _ _ r0 c0 rfl
  rw [f0, t0] at o1
  have f1 : recordEffects
        (rs.foldl (fun u r => logMessage r u) (EnableLogProcessor queue w)).logConfig
        (rs.foldl (fun u r => logMessage r u) (EnableLogProcessor queue w)).colors
      = recordEffects w.logConfig w.colors := by
    rw [← f0]
    funext m
    exact kept_effects k1 m
  obtain ⟨s1, s2, -, s4, s5⟩ := StopLogProcessor_started _ ch (kept_ready k1 r0) l1 n1
    (k1.2.2.2.1.trans d0)
  rw [f1] at s4
  obtain ⟨-, p2⟩ := processLogMessage_fold rs w hw
  have total : outputs (StopLogProcessor
        (rs.foldl (fun u r => logMessage r u) (EnableLogProcessor queue w))).trace
      = outputs w.trace ++ rs.flatMap (recordEffects w.logConfig w.colors) := by
    rw [s4, o1]
    simp [Chan.make]
  refine ⟨s1, s2, s5, by rw [total, p2], ?_, logMessage_fallback rs w hw hnil⟩
  rw [← (outputs_views _).2.2, total, printsOf_append, (outputs_views _).2.2,
    printsOf_recordEffects]

theorem C9_fifo_drain_fallback_witness :
    outputs (StopLogProcessor
        ([⟨LogLevelWarn, "app/main.go:3", false, "", [.str "disk", .str "at", .str "90%"]⟩,
          ⟨LogLevelCrit, "app/main.go:4", false, "", [.str "disk full"]⟩].foldl
          (fun u r => logMessage r u) (EnableLogProcessor 2 sampleWarnOnly))).trace
      = outputs
        ([⟨LogLevelWarn, "app/main.go:3", false, "", [.str "disk", .str "at", .str "90%"]⟩,
          ⟨LogLevelCrit, "app/main.go:4", false, "", [.str "disk full"]⟩].foldl
          (fun u r => processLogMessage r u) sampleWarnOnly).trace :=
  (C9_fifo_drain_fallback
    [⟨LogLevelWarn, "app/main.go:3", false, "", [.str "disk", .str "at", .str "90%"]⟩,
     ⟨LogLevelCrit, "app/main.go:4", false, "", [.str "disk full"]⟩]
    2 sampleWarnOnly (by decide) (by decide) (by decide)).2.2.2.1

/-! ## The terminal path -/

theorem handlePanicFatal_parts (lm : LogMessage) (w : World) :
    handlePanicFatal lm w = terminalPart lm (alertPart lm (metricPart lm (closePart w))) := rfl

theorem fromLogProcessor_views (evs : List Event) :
    metricsOf (evs.map Event.fromLogProcessor) = []
    ∧ alertsOf (evs.map Event.fromLogProcessor) = [] := by
  induction evs with
  | nil => exact ⟨rfl, rfl⟩
  | cons e es ih =>
    obtain ⟨i1, i2⟩ := ih
    simp only [metricsOf, alertsOf] at i1 i2 ⊢
    cases e <;>
      simp [Event.fromLogProcessor, Event.isDelivery, Event.metric?, Event.alert?, i1, i2]

/-- What the concurrent log processor adds to the trace holds no call of the
caller. -/
theorem logProcessorConcurrent_trace (w : World) :
    ∃ b, (logProcessorConcurrent w).trace = w.trace ++ b ∧ metricsOf b = [] ∧ alertsOf b = [] := by
  unfold logProcessorConcurrent
  split
  · exact ⟨_, rfl, (fromLogProcessor_views _).1, (fromLogProcessor_views _).2⟩
  · exact ⟨[], by simp, rfl, rfl⟩

theorem live_of_kept {w u : World} (h : Kept w u) : Live w u :=
  ⟨h.1, h.2.1, h.2.2.1, h.2.2.2.2⟩

theorem live_refl (w : World) (hw : w.halted = false) : Live w w :=
  ⟨hw, rfl, rfl, rfl⟩

theorem live_trans {a b c : World} (h1 : Live a b) (h2 : Live b c) : Live a c := by
  obtain ⟨_, a2, a3, a4⟩ := h1
  obtain ⟨b1, b2, b3, b4⟩ := h2
  exact ⟨b1, b2.trans a2, b3.trans a3, b4.trans a4⟩

theorem live_ready {w u : World} (h : Live w u) (hw : w.ready = true) : u.ready = true := by
  obtain ⟨h1, h2, h3, _⟩ := h
  obtain ⟨t1, _, _, _, _, _, t7, t8⟩ := toggles_eq h3
  rw [ready_iff] at hw ⊢
  rw [t1, t7, t8, h2]
  exact ⟨h1, hw.2.1, hw.2.2⟩

theorem logProcessorStep_none (u : World) (h : u.logConfig.logChan = none) :
    logProcessorStep u = u := by
  simp [logProcessorStep, h]

theorem logProcessorStep_cons (u : World) (ch : Chan LogMessage) (m : LogMessage)
    (rest : List LogMessage) (hh : u.halted = false) (h : u.logConfig.logChan = some ch)
    (hb : ch.buf = m :: rest) : logProcessorStep u = logProcessorIter u := by
  simp [logProcessorStep, h, hb, hh]

theorem logProcessorStep_exit (u : World) (ch : Chan LogMessage) (hh : u.halted = false)
    (h : u.logConfig.logChan = some ch) (hb : ch.buf = []) (hc : ch.closed = true)
    (hd : u.logConfig.done = false) :
    logProcessorStep u
      = { u with logConfig := { u.logConfig with done := true }
                 trace := u.trace ++ [.closeLogDone] } := by
  simp [logProcessorStep, h, hb, hh, hc, hd, World.setConfig, World.emit]

theorem logProcessorStep_rest (u : World) (ch : Chan LogMessage)
    (h : u.logConfig.logChan = some ch) (hb : ch.buf = [])
    (hc : ch.closed = false ∨ u.logConfig.done = true) : logProcessorStep u = u := by
  rcases hc with hc | hc <;> simp [logProcessorStep, h, hb, hc]

/-- A step of the log processor in a ready process keeps it ready. -/
theorem logProcessorStep_live (u : World) (hu : u.ready = true) :
    Live u (logProcessorStep u) := by
  obtain ⟨hh, -, -⟩ := (ready_iff u).mp hu
  cases hch : u.logConfig.logChan with
  | none =>
    rw [logProcessorStep_none u hch]
    exact live_refl u hh
  | some ch =>
    cases hb : ch.buf with
    | nil =>
      by_cases hc : ch.closed = true
      · by_cases hd : u.logConfig.done = true
        · rw [logProcessorStep_rest u ch hch hb (Or.inr hd)]
          exact live_refl u hh
        · rw [logProcessorStep_exit u ch hh hch hb hc (by simpa using hd)]
          exact ⟨hh, rfl, rfl, rfl⟩
      · rw [logProcessorStep_rest u ch hch hb (Or.inl (by simpa using hc))]
        exact live_refl u hh
    | cons m rest =>
      rw [logProcessorStep_cons u ch m rest hh hch hb]
      exact live_of_kept (logProcessorIter_cons u ch m rest hu hch hb).1

theorem logProcessorStep_iterate_live (k : Nat) :
    ∀ (u : World), u.ready = true → Live u (logProcessorStep^[k] u) := by
  induction k with
  | zero => intro u hu; exact live_refl u ((ready_iff u).mp hu).1
  | succ k ih =>
    intro u hu
    rw [Function.iterate_succ_apply]
    have l1 := logProcessorStep_live u hu
    exact live_trans l1 (ih _ (live_ready l1 hu))

/-- The concurrent log processor keeps a ready process ready. -/
theorem logProcessorConcurrent_live (w : World) (hw : w.ready = true) :
    Live w (logProcessorConcurrent w) := by
  obtain ⟨hh, -, -⟩ := (ready_iff w).mp hw
  unfold logProcessorConcurrent
  split
  · have yeq : w.yield.2 = { w with yields := w.yields + 1 } := by
      simp [World.yield, hh]
    have l0 : Live w { w.yield.2 with trace := [] } := by
      rw [yeq]
      exact ⟨hh, rfl, rfl, rfl⟩
    have l1 := logProcessorStep_iterate_live w.yield.1 _ (live_ready l0 hw)
    obtain ⟨a, b, c, d⟩ := live_trans l0 l1
    exact ⟨a, b, c, d⟩
  · exact live_refl w hh

theorem terminal_spec (lm : LogMessage) (c : String) (w : World) (hh : w.halted = false) :
    (if lm.Level = LogLevelFatal then logFatal c w else w.halt (.goPanic c)).halted = true
    ∧ (if lm.Level = LogLevelFatal then logFatal c w else w.halt (.goPanic c)).trace
        = w.trace ++ (if lm.Level = LogLevelFatal then [.logPrint c, .osExit 1] else [.goPanic c]) := by
  by_cases hl : lm.Level = LogLevelFatal
  · simp [hl, logFatal, World.emit, World.halt, hh]
  · simp [hl, World.halt, hh]

theorem closeLogChan_eq (w : World) (ch : Chan LogMessage) (hh : w.halted = false)
    (hch : w.logConfig.logChan = some ch) (hc : ch.closed = false) :
    closeLogChan w
      = { w with logConfig := { w.logConfig with logChan := some { ch with closed := true } }
                 trace := w.trace ++ [.closeLogChan] } := by
  simp [closeLogChan, hch, hc, World.setConfig, World.emit, hh]

theorem daemonIter_halted (v : World) (h : v.halted = true) : daemonIter v = v := by
  simp [daemonIter, h]

theorem ToQueue_halted (t : String) (v : World) (h : v.halted = true) :
    Sender.ToQueue t v = v := by
  have hi : ∀ k, daemonIter^[k] v = v := fun k =>
    Function.iterate_fixed (daemonIter_halted v h) k
  unfold Sender.ToQueue
  cases v.logConfig.tg with
  | none => simp [nilDeref, World.halt, h]
  | some s =>
    by_cases hc : s.in_.closed = true
    · simp [hc, World.halt, h]
    · simp [hc, World.yield, h, hi, World.setConfig, World.emit]

theorem Stop_halted (v : World) (h : v.halted = true) : Sender.Stop v = v := by
  have hi : ∀ k, daemonIter^[k] v = v := fun k =>
    Function.iterate_fixed (daemonIter_halted v h) k
  unfold Sender.Stop
  cases htg : v.logConfig.tg with
  | none => simp [nilDeref, World.halt, h]
  | some s =>
    by_cases hc : s.in_.closed = true
    · simp [hc, World.halt, h]
    · by_cases hd : s.done = true
      · simp [hc, hd, World.setConfig, World.emit, h]
      · simp [hc, hd, World.setConfig, World.emit, h, daemonExit, htg, hi]

theorem quiet_id : Quiet fun v => v := fun v => ⟨[], by simp, rfl⟩

theorem quiet_comp {f g : World → World} (hf : Quiet f) (hg : Quiet g) :
    Quiet fun v => g (f v) := by
  intro v
  obtain ⟨a, ha, ma⟩ := hf v
  obtain ⟨b, hb, mb⟩ := hg (f v)
  exact ⟨a ++ b, by rw [hb, ha, List.append_assoc], by rw [metricsOf_append, ma, mb]; rfl⟩

theorem quiet_concurrent : Quiet logProcessorConcurrent := by
  intro v
  obtain ⟨b, hb, mb, -⟩ := logProcessorConcurrent_trace v
  exact ⟨b, hb, mb⟩

theorem quiet_ToQueue (t : String) : Quiet (Sender.ToQueue t) := by
  intro v
  by_cases hh : v.halted = true
  · rw [ToQueue_halted t v hh]
    exact ⟨[], by simp, rfl⟩
  · have hh' : v.halted = false := by simpa using hh
    cases htg : v.logConfig.tg with
    | none =>
      exact ⟨[.runtimePanic "invalid memory address or nil pointer dereference"],
        by simp [Sender.ToQueue, htg, nilDeref, World.halt, hh'], rfl⟩
    | some s =>
      by_cases hc : s.in_.closed = true
      · exact ⟨[.runtimePanic "send on closed channel"],
          by simp [Sender.ToQueue, htg, hc, World.halt, hh'], rfl⟩
      · rw [ToQueue_eq t s v hh' htg (by simpa using hc)]
        refine ⟨attempts s v.net v.netCalls
            (s.in_.buf.take (max (v.sched v.yields) (s.in_.buf.length - s.in_.cap)))
          ++ [.sendIn t], by simp only [List.append_assoc], ?_⟩
        rw [metricsOf_append, metricsOf_attempts]
        rfl

theorem quiet_Stop : Quiet Sender.Stop := by
  intro v
  by_cases hh : v.halted = true
  · rw [Stop_halted v hh]
    exact ⟨[], by simp, rfl⟩
  · have hh' : v.halted = false := by simpa using hh
    cases htg : v.logConfig.tg with
    | none =>
      exact ⟨[.runtimePanic "invalid memory address or nil pointer dereference"],
        by simp [Sender.Stop, htg, nilDeref, World.halt, hh'], rfl⟩
    | some s =>
      by_cases hc : s.in_.closed = true
      · exact ⟨[.runtimePanic "close of closed channel"],
          by simp [Sender.Stop, htg, hc, World.halt, hh'], rfl⟩
      · by_cases hd : s.done = true
        · exact ⟨[.closeIn],
            by simp [Sender.Stop, htg, hc, hd, World.setConfig, World.emit, hh'], rfl⟩
        · rw [Stop_eq s v hh' htg (by simpa using hc) (by simpa using hd)]
          refine ⟨[.closeIn] ++ attempts s v.net v.netCalls s.in_.buf ++ [.closeTgDone],
            by simp only [List.append_assoc], ?_⟩
          simp only [metricsOf_append, metricsOf_attempts]
          rfl

theorem quiet_enqueue (lm : LogMessage) : Quiet (enqueuePart lm) := by
  intro v
  obtain ⟨b, hb, mb⟩ := quiet_concurrent
    (if lm.Level = LogLevelPanic then
      if v.logConfig.tgPanicEnabled = true then
        Sender.ToQueue (Sprintf "[PANIC] %s" [.str lm.formattedMessage]) v
      else v
    else if lm.Level = LogLevelFatal then
      if v.logConfig.tgFatalEnabled = true then
        Sender.ToQueue (Sprintf "[FATAL] %s" [.str lm.formattedMessage]) v
      else v
    else v)
  have inner : ∃ a,
      (if lm.Level = LogLevelPanic then
        if v.logConfig.tgPanicEnabled = true then
          Sender.ToQueue (Sprintf "[PANIC] %s" [.str lm.formattedMessage]) v
        else v
      else if lm.Level = LogLevelFatal then
        if v.logConfig.tgFatalEnabled = true then
          Sender.ToQueue (Sprintf "[FATAL] %s" [.str lm.formattedMessage]) v
        else v
      else v).trace = v.trace ++ a ∧ metricsOf a = [] := by
    split_ifs
    · exact quiet_ToQueue _ v
    · exact quiet_id v
    · exact quiet_ToQueue _ v
    · exact quiet_id v
    · exact quiet_id v
  obtain ⟨a, ha, ma⟩ := inner
  refine ⟨a ++ b, ?_, by rw [metricsOf_append, ma, mb]; rfl⟩
  unfold enqueuePart
  rw [hb, ha, List.append_assoc]

theorem quiet_alert (lm : LogMessage) : Quiet (alertPart lm) := by
  intro v
  unfold alertPart
  split
  · exact quiet_comp (quiet_comp (quiet_enqueue lm) quiet_Stop) quiet_concurrent v
  · exact quiet_id v

theorem quiet_terminal (lm : LogMessage) : Quiet (terminalPart lm) := by
  intro v
  unfold terminalPart
  by_cases hh : v.halted = true
  · refine ⟨[], ?_, rfl⟩
    split <;> simp [logFatal, World.emit, World.halt, hh]
  · obtain ⟨-, z⟩ := terminal_spec lm (lm.coloredMessage v.colors lm.formattedMessage) v
      (by simpa using hh)
    refine ⟨_, z, ?_⟩
    split <;> rfl

/-- The closing of the logging queue by `handlePanicFatal` in a ready process
whose queue is not closed yet: the process stays ready, and what is added to
the trace holds no gauge increment and no alert of the caller. -/
theorem closePart_spec (w : World) (hw : w.ready = true) (hlo : w.logOpen = true) :
    ∃ pre, (closePart w).trace = w.trace ++ pre ∧ metricsOf pre = [] ∧ alertsOf pre = []
      ∧ Live w (closePart w) := by
  obtain ⟨hh, -, -⟩ := (ready_iff w).mp hw
  unfold closePart
  cases hch : w.logConfig.logChan with
  | none =>
    simp only [Option.isSome_none, Bool.false_eq_true, if_false]
    exact ⟨[], by simp, rfl, rfl, live_refl w hh⟩
  | some ch =>
    have hc : ch.closed = false := by simpa [World.logOpen, hch] using hlo
    simp only [Option.isSome_some, if_true]
    have l0 : Live w (closeLogChan w) := by
      rw [closeLogChan_eq w ch hh hch hc]
      exact ⟨hh, rfl, rfl, rfl⟩
    have t0 : (closeLogChan w).trace = w.trace ++ [.closeLogChan] := by
      rw [closeLogChan_eq w ch hh hch hc]
    obtain ⟨b, hb, mb, ab⟩ := logProcessorConcurrent_trace (closeLogChan w)
    refine ⟨[.closeLogChan] ++ b, by rw [hb, t0, List.append_assoc], ?_, ?_,
      live_trans l0 (logProcessorConcurrent_live _ (live_ready l0 hw))⟩
    · rw [metricsOf_append, mb]; rfl
    · rw [alertsOf_append, ab]; rfl

/-- C7. In a ready process `processLogMessage` increments the error gauge
once, with the level of the record as label, when the level is not `LOG` and
metrics are enabled, and not at all otherwise.  For a `PANIC` or `FATAL`
record `handlePanicFatal` increments it once with the level as label when
metrics are enabled and not at all otherwise, and no text is put on the alert
queue before the increment.  (What the log processor calls concurrently is
recorded under `logProcessor` and is not a call of `handlePanicFatal`.) -/
theorem C7_error_metric (lm : LogMessage) (w : World) (hw : w.ready = true) :
    metricsOf (processLogMessage lm w).trace
      = metricsOf w.trace ++
        (if lm.Level ≠ LogLevelLog ∧ w.logConfig.errMetricsEnabled = true then [lm.Level]
          else [])
    ∧ (w.logOpen = true → lm.Level = LogLevelPanic ∨ lm.Level = LogLevelFatal →
        ∃ pre post, (handlePanicFatal lm w).trace
            = w.trace ++ pre
              ++ (if w.logConfig.errMetricsEnabled = true then [.errGaugeInc lm.Level] else [])
              ++ post
          ∧ metricsOf pre = [] ∧ alertsOf pre = [] ∧ metricsOf post = []) := by
  constructor
  · have := (processLogMessage_spec lm w hw).2
    rw [← (outputs_views _).2.1, this, metricsOf_append, (outputs_views _).2.1]
    congr 1
    unfold recordEffects
    split_ifs <;> simp_all [metricsOf, Event.metric?]
  · intro hlo _
    obtain ⟨pre, hp, mp, ap, lp⟩ := closePart_spec w hw hlo
    have r1 := live_ready lp hw
    obtain ⟨hh1, hm1, -⟩ := (ready_iff _).mp r1
    obtain ⟨-, t2, -⟩ := metric_spec lm.Level (closePart w) hh1 hm1
    obtain ⟨-, -, -, -, -, -, -, k8⟩ := toggles_eq lp.2.2.1
    obtain ⟨b2, hb2, mb2⟩ := quiet_concurrent
      (if (closePart w).logConfig.errMetricsEnabled = true then ErrGaugeInc lm.Level (closePart w)
        else closePart w)
    obtain ⟨x, hx, mx⟩ := quiet_comp (quiet_alert lm) (quiet_terminal lm)
      (metricPart lm (closePart w))
    refine ⟨pre, b2 ++ x, ?_, mp, ap, by rw [metricsOf_append, mb2, mx]; rfl⟩
    rw [handlePanicFatal_parts, hx]
    unfold metricPart
    rw [hb2, t2, hp, k8]
    simp only [List.append_assoc]

theorem C7_error_metric_witness :
    metricsOf (processLogMessage ⟨LogLevelCrit, "app/main.go:2", false, "", [.str "full"]⟩
        sampleAll).trace = ["CRIT"]
    ∧ ∃ pre post, (handlePanicFatal ⟨LogLevelFatal, "app/main.go:9", false, "", [.str "bye"]⟩
          sampleAll).trace
        = sampleAll.trace ++ pre
          ++ (if sampleAll.logConfig.errMetricsEnabled = true then [.errGaugeInc "FATAL"] else [])
          ++ post
      ∧ metricsOf pre = [] ∧ alertsOf pre = [] ∧ metricsOf post = [] :=
  ⟨(C7_error_metric ⟨LogLevelCrit, "app/main.go:2", false, "", [.str "full"]⟩ sampleAll
      (by decide)).1,
   (C7_error_metric ⟨LogLevelFatal, "app/main.go:9", false, "", [.str "bye"]⟩ sampleAll
      (by decide)).2 (by decide) (Or.inr rfl)⟩


/-- The concurrent log processor when the logging queue is closed and empty
(or does not exist): all it can do is close `done`, once. -/
theorem logProcessorConcurrent_idle (v : World) (hh : v.halted = false)
    (hi : ∀ ch, v.logConfig.logChan = some ch → ch.buf = [] ∧ ch.closed = true) :
    ∃ b, (logProcessorConcurrent v).trace = v.trace ++ b
      ∧ (∀ e ∈ b, e = Event.logProcessor .closeLogDone)
      ∧ (logProcessorConcurrent v).halted = false
      ∧ (logProcessorConcurrent v).colors = v.colors
      ∧ (logProcessorConcurrent v).logConfig.tg = v.logConfig.tg
      ∧ (logProcessorConcurrent v).logConfig.toggles = v.logConfig.toggles
      ∧ (logProcessorConcurrent v).logConfig.logChan = v.logConfig.logChan := by
  cases hch : v.logConfig.logChan with
  | none =>
    have e : logProcessorConcurrent v = v := by
      simp [logProcessorConcurrent, hch]
    rw [e]
    exact ⟨[], by simp, by simp, hh, rfl, rfl, rfl, hch⟩
  | some ch =>
    obtain ⟨hb, hc⟩ := hi ch hch
    have yeq : v.yield.2 = { v with yields := v.yields + 1 } := by
      simp [World.yield, hh]
    have key : ∃ tr dn,
        logProcessorStep^[v.yield.1] { v.yield.2 with trace := [] }
          = { v with yields := v.yields + 1, trace := tr
                     logConfig := { v.logConfig with done := dn } }
        ∧ (tr = [] ∨ tr = [.closeLogDone]) := by
      rw [yeq]
      show ∃ tr dn,
        logProcessorStep^[v.yield.1] { v with yields := v.yields + 1, trace := [] }
          = { v with yields := v.yields + 1, trace := tr
                     logConfig := { v.logConfig with done := dn } }
        ∧ (tr = [] ∨ tr = [.closeLogDone])
      by_cases hd : v.logConfig.done = true
      · refine ⟨[], v.logConfig.done, ?_, Or.inl rfl⟩
        exact Function.iterate_fixed
          (logProcessorStep_rest { v with yields := v.yields + 1, trace := [] } ch hch hb
            (Or.inr hd)) _
      · have hd' : v.logConfig.done = false := by simpa using hd
        cases v.yield.1 with
        | zero => exact ⟨[], v.logConfig.done, rfl, Or.inl rfl⟩
        | succ n =>
          refine ⟨[.closeLogDone], true, ?_, Or.inr rfl⟩
          rw [Function.iterate_succ_apply,
            logProcessorStep_exit { v with yields := v.yields + 1, trace := [] } ch hh hch hb hc
              hd']
          exact Function.iterate_fixed
            (logProcessorStep_rest
              { v with yields := v.yields + 1, trace := [.closeLogDone]
                       logConfig := { v.logConfig with done := true } } ch hch hb (Or.inr rfl)) _
    obtain ⟨tr, dn, e, htr⟩ := key
    have e2 : logProcessorConcurrent v
        = { v with yields := v.yields + 1, trace := v.trace ++ tr.map Event.fromLogProcessor
                   logConfig := { v.logConfig with done := dn } } := by
      unfold logProcessorConcurrent
      simp only [hch, Option.isSome_some, if_true]
      rw [e]
      simp [hch]
    rw [e2]
    refine ⟨tr.map Event.fromLogProcessor, rfl, ?_, hh, rfl, rfl, rfl, hch⟩
    rcases htr with h | h <;> subst h <;> simp [Event.fromLogProcessor, Event.isDelivery]

/-- The closing of the logging queue by `handlePanicFatal` when no record is
waiting on it. -/
theorem closePart_idle (w : World) (hh : w.halted = false) (hlo : w.logOpen = true)
    (hidle : w.logIdle = true) :
    ∃ b1, (closePart w).trace
        = w.trace ++ (if w.logConfig.logChan.isSome = true then [.closeLogChan] else []) ++ b1
      ∧ (∀ e ∈ b1, e = Event.logProcessor .closeLogDone)
      ∧ (closePart w).halted = false
      ∧ (closePart w).colors = w.colors
      ∧ (closePart w).logConfig.tg = w.logConfig.tg
      ∧ (closePart w).logConfig.toggles = w.logConfig.toggles
      ∧ (∀ ch, (closePart w).logConfig.logChan = some ch → ch.buf = [] ∧ ch.closed = true)
      ∧ ((closePart w).logConfig.logChan.isSome = w.logConfig.logChan.isSome) := by
  unfold closePart
  cases hch : w.logConfig.logChan with
  | none =>
    refine ⟨[], ?_⟩
    simp [hh, hch]
  | some ch =>
    have hc : ch.closed = false := by simpa [World.logOpen, hch] using hlo
    have hb : ch.buf = [] := by simpa [World.logIdle, hch] using hidle
    simp only [Option.isSome_some, if_true]
    have e := closeLogChan_eq w ch hh hch hc
    have ic : ∀ c, (closeLogChan w).logConfig.logChan = some c → c.buf = [] ∧ c.closed = true := by
      rw [e]
      intro c h
      simp only [Option.some.injEq] at h
      subst h
      exact ⟨hb, rfl⟩
    obtain ⟨b, g1, g2, g3, g4, g5, g6, g7⟩ := logProcessorConcurrent_idle (closeLogChan w)
      (by rw [e]; exact hh) ic
    refine ⟨b, ?_, g2, g3, ?_, ?_, ?_, ?_, ?_⟩
    · rw [g1, e]
    · rw [g4, e]
    · rw [g5, e]
    · rw [g6, e]; rfl
    · rw [g7]; exact ic
    · rw [g7, e]; rfl

/-- The gauge increment of `handlePanicFatal` when no record is waiting on the
closed logging queue. -/
theorem metricPart_idle (lm : LogMessage) (v : World) (hh : v.halted = false)
    (hm : v.logConfig.errMetricsEnabled = true → v.logConfig.errMetrics = true)
    (hic : ∀ ch, v.logConfig.logChan = some ch → ch.buf = [] ∧ ch.closed = true) :
    ∃ b2, (metricPart lm v).trace
        = v.trace ++ (if v.logConfig.errMetricsEnabled = true then [.errGaugeInc lm.Level] else [])
          ++ b2
      ∧ (∀ e ∈ b2, e = Event.logProcessor .closeLogDone)
      ∧ (metricPart lm v).halted = false
      ∧ (metricPart lm v).colors = v.colors
      ∧ (metricPart lm v).logConfig.tg = v.logConfig.tg
      ∧ (metricPart lm v).logConfig.toggles = v.logConfig.toggles
      ∧ (metricPart lm v).logConfig.logChan = v.logConfig.logChan := by
  obtain ⟨f, t, c⟩ := metric_spec lm.Level v hh hm
  unfold metricPart
  generalize (if v.logConfig.errMetricsEnabled = true then ErrGaugeInc lm.Level v else v) = X
    at f t c ⊢
  obtain ⟨b, g1, g2, g3, g4, g5, g6, g7⟩ := logProcessorConcurrent_idle X f.1
    (by rw [c]; exact hic)
  exact ⟨b, by rw [g1, t], g2, g3, g4.trans f.2.2.2.2.2, by rw [g5, c], by rw [g6, c],
    by rw [g7, c]⟩

/-- The `switch` of `handlePanicFatal` on a running alert pipeline. -/
theorem enqueue_inner (lm : LogMessage) (v : World) (s : Sender) (hh : v.halted = false)
    (htg : v.logConfig.tg = some s) (hc : s.in_.closed = false) (X : World)
    (hX : X =
      if lm.Level = LogLevelPanic then
        if v.logConfig.tgPanicEnabled = true then
          Sender.ToQueue (Sprintf "[PANIC] %s" [.str lm.formattedMessage]) v
        else v
      else if lm.Level = LogLevelFatal then
        if v.logConfig.tgFatalEnabled = true then
          Sender.ToQueue (Sprintf "[FATAL] %s" [.str lm.formattedMessage]) v
        else v
      else v) :
    ∃ (d1 : List Event) (c : Chan String),
      X.trace = v.trace ++ d1 ++ (terminalAlert v.logConfig lm).map Event.sendIn
      ∧ d1.all Event.isDelivery = true
      ∧ X.halted = false ∧ X.colors = v.colors
      ∧ X.logConfig.logChan = v.logConfig.logChan
      ∧ X.logConfig.tg = some { s with in_ := c } ∧ c.closed = false
      ∧ postsOf d1 ++ c.buf.map (sendRequest s)
          = (s.in_.buf ++ terminalAlert v.logConfig lm).map (sendRequest s) := by
  have tagP : Sprintf "[PANIC] %s" [.str lm.formattedMessage] = "[PANIC] " ++ lm.formattedMessage :=
    Sprintf_tag "[PANIC] " _ (by decide)
  have tagF : Sprintf "[FATAL] %s" [.str lm.formattedMessage] = "[FATAL] " ++ lm.formattedMessage :=
    Sprintf_tag "[FATAL] " _ (by decide)
  have none : ∃ (d1 : List Event) (c : Chan String),
      v.trace = v.trace ++ d1 ++ ([] : List String).map Event.sendIn
      ∧ d1.all Event.isDelivery = true
      ∧ v.halted = false ∧ v.colors = v.colors
      ∧ v.logConfig.logChan = v.logConfig.logChan
      ∧ v.logConfig.tg = some { s with in_ := c } ∧ c.closed = false
      ∧ postsOf d1 ++ c.buf.map (sendRequest s)
          = (s.in_.buf ++ []).map (sendRequest s) :=
    ⟨[], s.in_, by simp, rfl, hh, rfl, rfl, htg, hc, by simp [postsOf]⟩
  have one : ∀ t, ∃ (d1 : List Event) (c : Chan String),
      (Sender.ToQueue t v).trace = v.trace ++ d1 ++ [t].map Event.sendIn
      ∧ d1.all Event.isDelivery = true
      ∧ (Sender.ToQueue t v).halted = false ∧ (Sender.ToQueue t v).colors = v.colors
      ∧ (Sender.ToQueue t v).logConfig.logChan = v.logConfig.logChan
      ∧ (Sender.ToQueue t v).logConfig.tg = some { s with in_ := c } ∧ c.closed = false
      ∧ postsOf d1 ++ c.buf.map (sendRequest s)
          = (s.in_.buf ++ [t]).map (sendRequest s) := by
    intro t
    rw [ToQueue_eq t s v hh htg hc]
    refine ⟨attempts s v.net v.netCalls
        (s.in_.buf.take (max (v.sched v.yields) (s.in_.buf.length - s.in_.cap))),
      { s.in_ with
        buf := s.in_.buf.drop (max (v.sched v.yields) (s.in_.buf.length - s.in_.cap)) ++ [t] },
      rfl, attempts_all _ _ _ _, hh, rfl, rfl, rfl, hc, ?_⟩
    rw [postsOf_attempts]
    simp only [← List.map_append, ← List.append_assoc, List.take_append_drop]
  subst hX
  rw [tagP, tagF]
  unfold terminalAlert
  by_cases hP : lm.Level = LogLevelPanic
  · by_cases hp : v.logConfig.tgPanicEnabled = true
    · simpa only [if_pos hP, if_pos hp] using one _
    · simpa only [if_pos hP, if_neg hp] using none
  · by_cases hF : lm.Level = LogLevelFatal
    · by_cases hf : v.logConfig.tgFatalEnabled = true
      · simpa only [if_neg hP, if_pos hF, if_pos hf] using one _
      · simpa only [if_neg hP, if_pos hF, if_neg hf] using none
    · simpa only [if_neg hP, if_neg hF] using none

/-- The alerting block of `handlePanicFatal` on a running alert pipeline when
no record is waiting on the closed logging queue. -/
theorem alertPart_idle (lm : LogMessage) (v : World) (s : Sender) (hh : v.halted = false)
    (hT : v.logConfig.tgEnabled = true) (htg : v.logConfig.tg = some s)
    (hc : s.in_.closed = false) (hd : s.done = false)
    (hic : ∀ ch, v.logConfig.logChan = some ch → ch.buf = [] ∧ ch.closed = true) :
    ∃ d1 d2 b3 b4 : List Event,
      (alertPart lm v).trace
        = v.trace ++ d1 ++ (terminalAlert v.logConfig lm).map Event.sendIn ++ b3 ++ [.closeIn]
          ++ d2 ++ [.closeTgDone] ++ b4
      ∧ (∀ e ∈ b3 ++ b4, e = Event.logProcessor .closeLogDone)
      ∧ d1.all Event.isDelivery = true ∧ d2.all Event.isDelivery = true
      ∧ postsOf (d1 ++ d2) = (s.in_.buf ++ terminalAlert v.logConfig lm).map (sendRequest s)
      ∧ (alertPart lm v).halted = false
      ∧ (alertPart lm v).colors = v.colors
      ∧ (alertPart lm v).logConfig.logChan = v.logConfig.logChan := by
  obtain ⟨d1, c, x1, x2, x3, x4, x5, x6, x7, x8⟩ := enqueue_inner lm v s hh htg hc _ rfl
  unfold alertPart enqueuePart
  simp only [hT, if_true]
  generalize (if lm.Level = LogLevelPanic then
      if v.logConfig.tgPanicEnabled = true then
        Sender.ToQueue (Sprintf "[PANIC] %s" [Val.str lm.formattedMessage]) v
      else v
    else if lm.Level = LogLevelFatal then
      if v.logConfig.tgFatalEnabled = true then
        Sender.ToQueue (Sprintf "[FATAL] %s" [Val.str lm.formattedMessage]) v
      else v
    else v) = X at x1 x3 x4 x5 x6 ⊢
  obtain ⟨b3, y1, y2, y3, y4, y5, -, y7⟩ := logProcessorConcurrent_idle X x3
    (by rw [x5]; exact hic)
  generalize logProcessorConcurrent X = Y at y1 y3 y4 y5 y7 ⊢
  have st := Stop_eq { s with in_ := c } Y y3 (y5.trans x6) x7 hd
  have z1 : (Sender.Stop Y).trace = Y.trace ++ [.closeIn]
      ++ attempts { s with in_ := c } Y.net Y.netCalls c.buf ++ [.closeTgDone] := by
    rw [st]
  have z3 : (Sender.Stop Y).halted = false := by rw [st]; exact y3
  have z4 : (Sender.Stop Y).colors = Y.colors := by rw [st]
  have z7 : (Sender.Stop Y).logConfig.logChan = Y.logConfig.logChan := by rw [st]
  generalize Sender.Stop Y = Z at z1 z3 z4 z7 ⊢
  obtain ⟨b4, u1, u2, u3, u4, -, -, u7⟩ := logProcessorConcurrent_idle Z z3
    (by rw [z7, y7, x5]; exact hic)
  refine ⟨d1, attempts { s with in_ := c } Y.net Y.netCalls c.buf, b3, b4, ?_, ?_, x2,
    attempts_all _ _ _ _, ?_, u3, ?_, ?_⟩
  · rw [u1, z1, y1, x1]
  · intro e he
    rcases List.mem_append.mp he with h | h
    · exact y2 e h
    · exact u2 e h
  · rw [postsOf_append, postsOf_attempts, sendRequest_in]
    exact x8
  · rw [u4, z4, y4, x4]
  · rw [u7, z7, y7, x5]

theorem terminalPart_logConfig (lm : LogMessage) (v : World) :
    (terminalPart lm v).logConfig = v.logConfig := by
  unfold terminalPart logFatal World.emit World.halt
  split_ifs <;> rfl

theorem terminalAlert_congr {c d : LogConfig} (h : d.toggles = c.toggles) (lm : LogMessage) :
    terminalAlert d lm = terminalAlert c lm := by
  obtain ⟨-, -, -, -, t5, t6, -, -⟩ := toggles_eq h
  simp [terminalAlert, t5, t6]

/-- C1. For a `PANIC` or `FATAL` record in a ready process whose logging queue
is not closed yet and holds no waiting record, the calls of `handlePanicFatal`
are, in this order: the closing of the logging queue when it exists, the
increment of the error gauge when metrics are enabled, and, when alerting is
enabled, the terminal text put on the alert queue only when the toggle of the
record's level is on, the closing of the alert queue and the closing of `done`
by the daemon; then, last, the terminal action: `log.Print` and `os.Exit(1)`
for `FATAL`, `panic` with the colourised message for `PANIC`.  The call does
not return, and the logging queue is closed afterwards.  With alerting
enabled the daemon's calls `d1` and `d2`, all of them before the terminal
action, hold one HTTP request for every text that was queued, the terminal
one included when it was queued, in order.  The concurrent log processor
contributes `b1` to `b4`: nothing but its closing of `logConfig.done`. -/
theorem C1_flush_before_terminate (lm : LogMessage) (w : World) (hw : w.ready = true)
    (hlo : w.logOpen = true) (hidle : w.logIdle = true)
    (hl : lm.Level = LogLevelPanic ∨ lm.Level = LogLevelFatal) :
    ∃ b1 b2 b3 b4 d1 d2 : List Event,
      (handlePanicFatal lm w).trace = w.trace
        ++ (if w.logConfig.logChan.isSome = true then [.closeLogChan] else []) ++ b1
        ++ (if w.logConfig.errMetricsEnabled = true then [.errGaugeInc lm.Level] else []) ++ b2
        ++ (if w.logConfig.tgEnabled = true then
              d1 ++ (terminalAlert w.logConfig lm).map Event.sendIn ++ b3 ++ [.closeIn] ++ d2
                ++ [.closeTgDone] ++ b4
            else [])
        ++ terminalAction w.colors lm
      ∧ (∀ e ∈ b1 ++ b2 ++ b3 ++ b4, e = Event.logProcessor .closeLogDone)
      ∧ (handlePanicFatal lm w).halted = true
      ∧ d1.all Event.isDelivery = true ∧ d2.all Event.isDelivery = true
      ∧ (∀ s, w.logConfig.tgEnabled = true → w.logConfig.tg = some s →
          postsOf (d1 ++ d2) = (s.in_.buf ++ terminalAlert w.logConfig lm).map (sendRequest s))
      ∧ terminalAction w.colors lm
          = (if lm.Level = LogLevelFatal then
              [.logPrint (lm.coloredMessage w.colors lm.formattedMessage), .osExit 1]
             else [.goPanic (w.colors.Cyan ++ lm.formattedMessage ++ w.colors.Reset)])
      ∧ terminalAlert w.logConfig lm
          = (if (lm.Level = LogLevelPanic ∧ w.logConfig.tgPanicEnabled = true)
                ∨ (lm.Level = LogLevelFatal ∧ w.logConfig.tgFatalEnabled = true)
             then ["[" ++ lm.Level ++ "] " ++ lm.formattedMessage] else [])
      ∧ (w.logConfig.logChan.isSome = true → (handlePanicFatal lm w).logOpen = false) := by
  obtain ⟨hh, hm, ht⟩ := (ready_iff w).mp hw
  have hne : LogLevelPanic ≠ LogLevelFatal ∧ LogLevelPanic ≠ LogLevelLog
      ∧ LogLevelPanic ≠ LogLevelWarn ∧ LogLevelPanic ≠ LogLevelCrit := by decide
  have tact : terminalAction w.colors lm
      = (if lm.Level = LogLevelFatal then
          [.logPrint (lm.coloredMessage w.colors lm.formattedMessage), .osExit 1]
         else [.goPanic (w.colors.Cyan ++ lm.formattedMessage ++ w.colors.Reset)]) := by
    rcases hl with h | h
    · simp [terminalAction, LogMessage.coloredMessage, h, hne.1, hne.2.1, hne.2.2.1, hne.2.2.2]
    · simp [terminalAction, h]
  have talert : terminalAlert w.logConfig lm
      = (if (lm.Level = LogLevelPanic ∧ w.logConfig.tgPanicEnabled = true)
            ∨ (lm.Level = LogLevelFatal ∧ w.logConfig.tgFatalEnabled = true)
         then ["[" ++ lm.Level ++ "] " ++ lm.formattedMessage] else []) := by
    rcases hl with h | h
    · by_cases hp : w.logConfig.tgPanicEnabled = true
      · simp [terminalAlert, h, hne.1, hp]
        rfl
      · simp [terminalAlert, h, hne.1, hp]
    · by_cases hf : w.logConfig.tgFatalEnabled = true
      · simp [terminalAlert, h, hne.1.symm, hf]
        rfl
      · simp [terminalAlert, h, hne.1.symm, hf]
  rw [handlePanicFatal_parts]
  obtain ⟨b1, a1, a2, a3, a4, a5, a6, a7, a8⟩ := closePart_idle w hh hlo hidle
  generalize closePart w = WA at a1 a3 a4 a5 a6 a7 a8 ⊢
  obtain ⟨k1, -, -, -, -, -, k7, k8⟩ := toggles_eq a6
  obtain ⟨b2, m1, m2, m3, m4, m5, m6, m7⟩ := metricPart_idle lm WA a3
    (by rw [k7, k8]; exact hm) a7
  generalize metricPart lm WA = WB at m1 m3 m4 m5 m6 m7 ⊢
  obtain ⟨j1, -, -, -, -, -, -, -⟩ := toggles_eq (m6.trans a6)
  have closed : ∀ V : World, V.logConfig.logChan = WB.logConfig.logChan →
      w.logConfig.logChan.isSome = true → (terminalPart lm V).logOpen = false := by
    intro V hV hs
    unfold World.logOpen
    rw [terminalPart_logConfig, hV, m7]
    rw [← a8] at hs
    cases hch : WA.logConfig.logChan with
    | none => simp [hch] at hs
    | some ch => simp [(a7 ch hch).2]
  by_cases hT : w.logConfig.tgEnabled = true
  · obtain ⟨s, htg, hc, hd⟩ := tgOpen_some w (ht hT)
    obtain ⟨d1, d2, b3, b4, c1, c2, c3, c4, c5, c6, c7, c8⟩ := alertPart_idle lm WB s m3
      (j1.trans hT) (by rw [m5, a5, htg]) hc hd (by rw [m7]; exact a7)
    rw [terminalAlert_congr (m6.trans a6)] at c1 c5
    generalize alertPart lm WB = WC at c1 c6 c7 c8 ⊢
    obtain ⟨z1, z2⟩ := terminal_spec lm (lm.coloredMessage WC.colors lm.formattedMessage) WC c6
    refine ⟨b1, b2, b3, b4, d1, d2, ?_, ?_, z1, c3, c4, ?_, tact, talert, closed WC c8⟩
    · unfold terminalPart
      rw [z2, c1, m1, a1, k8, if_pos hT, c7, m4, a4]
      simp [terminalAction, List.append_assoc]
    · intro e he
      simp only [List.mem_append] at he
      rcases he with ((h | h) | h) | h
      · exact a2 e h
      · exact m2 e h
      · exact c2 e (List.mem_append.mpr (Or.inl h))
      · exact c2 e (List.mem_append.mpr (Or.inr h))
    · intro s' _ hs'
      rw [htg] at hs'
      cases hs'
      exact c5
  · have e : alertPart lm WB = WB := by
      unfold alertPart
      rw [j1, if_neg hT]
    rw [e]
    obtain ⟨z1, z2⟩ := terminal_spec lm (lm.coloredMessage WB.colors lm.formattedMessage) WB m3
    refine ⟨b1, b2, [], [], [], [], ?_, ?_, z1, rfl, rfl, fun s h => absurd h hT, tact, talert,
      closed WB rfl⟩
    · unfold terminalPart
      rw [z2, m1, a1, k8, if_neg hT, m4, a4]
      simp [terminalAction, List.append_assoc]
    · intro e he
      simp only [List.mem_append, List.append_nil] at he
      rcases he with h | h
      · exact a2 e h
      · exact m2 e h

theorem C1_flush_before_terminate_witness :
    (handlePanicFatal ⟨LogLevelFatal, "app/main.go:9", false, "", [.str "bye"]⟩ sampleAll).halted
      = true
    ∧ (handlePanicFatal ⟨LogLevelFatal, "app/main.go:9", false, "", [.str "bye"]⟩
        sampleAll).logOpen = false := by
  obtain ⟨_, _, _, _, _, _, _, _, h, _, _, _, _, _, c⟩ := C1_flush_before_terminate
    ⟨LogLevelFatal, "app/main.go:9", false, "", [.str "bye"]⟩ sampleAll (by decide) (by decide)
    (by decide) (Or.inr rfl)
  exact ⟨h, c (by decide)⟩

/-- C1, two runs of `Fatal` that do not follow the order close, increment,
enqueue, `Stop`, terminal action.  First, alerting on with the
`FATAL` toggle off: `Fatal("bye")` puts nothing on the alert queue and the
daemon makes no HTTP call before `os.Exit(1)`.  Second, `Warn("disk")` still
waiting on the logging queue when `Fatal("bye")` is called, the log processor
running only after `Stop` has closed the alert queue: the processor prints the
record, increments the gauge and panics in its send on the closed alert queue;
the process ends there, `log.Print` and `os.Exit(1)` of the terminal action
never happen. -/
theorem C1_terminal_action_not_always_last :
    (Fatal (some ("/srv/app/main.go", 9)) [.str "bye"] sampleWarnOnly).trace
      = [.errGaugeInc "FATAL", .closeIn, .closeTgDone,
         .logPrint "\x1b[35mapp/main.go:9 bye\n\x1b[0m", .osExit 1]
    ∧ sampleWarnOnly.logConfig.tgEnabled = true
    ∧ (Fatal (some ("/srv/app/main.go", 9)) [.str "bye"]
        (Warn (some ("/srv/app/main.go", 8)) [.str "disk"] raceWorld)).trace
      = [.sendLogChan ⟨LogLevelWarn, "app/main.go:8", false, "", [.str "disk"]⟩,
         .closeLogChan,
         .errGaugeInc "FATAL",
         .sendIn "[FATAL] app/main.go:9 bye\n",
         .closeIn,
         .clientDoTimeout
           { method := "POST"
             uri := "https://api.telegram.org/botT/sendMessage"
             body := "chat_id=1&message_thread_id=2&text=[FATAL] app/main.go:9 bye\n"
             headers := [("Content-Type", "application/x-www-form-urlencoded")] }
           (10 * Second),
         .closeTgDone,
         .logProcessor (.logPrint "\x1b[33mapp/main.go:8 disk\n\x1b[0m"),
         .logProcessor (.errGaugeInc "WARN"),
         .logProcessor (.runtimePanic "send on closed channel")]
    ∧ (Warn (some ("/srv/app/main.go", 8)) [.str "disk"] raceWorld).ready = true
    ∧ (Warn (some ("/srv/app/main.go", 8)) [.str "disk"] raceWorld).logOpen = true := by
  decide

end Inform
